import Mathlib

/-!
Verification of the TimeTracker record store (`time_tracker.py`).

Text is modeled as `List Char` (a Python `str`).  All definitions are
executable translations of the corresponding Python functions; machine
floats that only ever hold exact decimal/second-derived values are
modeled as `ℚ`.
-/

set_option maxHeartbeats 1000000

abbrev Str := List Char

/-- Python whitespace for `str.strip()`: space, tab, newline, carriage
return, vertical tab (0x0b) and form feed (0x0c). -/

def isPySpace (c : Char) : Bool :=
  c = ' ' || c = '\t' || c = '\n' || c = '\r' || c.toNat = 11 || c.toNat = 12

/-- `str.lstrip()` (whitespace-only form). -/

def lstrip (cs : Str) : Str := cs.dropWhile isPySpace

/-- `str.rstrip()` (whitespace-only form). -/

def rstrip (cs : Str) : Str := (cs.reverse.dropWhile isPySpace).reverse

/-- Python `str.strip()`. -/

def pyStrip (cs : Str) : Str := rstrip (lstrip cs)

/-- Python `str.split(',')`: split on every comma, keeping empty fields. -/

def splitComma : Str → List Str
  | [] => [[]]
  | c :: rest =>
    if c = ',' then [] :: splitComma rest
    else
      match splitComma rest with
      | g :: gs => (c :: g) :: gs
      | [] => [[c]]

/-- Python `','.join(...)`. -/

def joinComma : List Str → Str
  | [] => []
  | [g] => g
  | g :: g2 :: gs => g ++ ',' :: joinComma (g2 :: gs)

/-- Apply `f` to the first element of a list (identity on `[]`). -/

def modHead (f : Str → Str) : List Str → List Str
  | [] => []
  | g :: gs => f g :: gs

/-- Apply `f` to the last element of a list (identity on `[]`). -/

def modLast (f : Str → Str) : List Str → List Str
  | [] => []
  | [g] => [f g]
  | g :: g2 :: gs => g :: modLast f (g2 :: gs)

/-- ASCII digit test. -/

def isDig (c : Char) : Bool := decide (48 ≤ c.toNat ∧ c.toNat ≤ 57)

/-- Numeric value of an ASCII digit. -/

def dval (c : Char) : Nat := c.toNat - 48

/-- The ASCII digit character for `n < 10`. -/

def digitCh (n : Nat) : Char := Char.ofNat (48 + n)

/-- Gregorian leap year, as Python's `calendar.isleap`. -/

def isLeap (y : Nat) : Bool := decide (y % 4 = 0 ∧ (¬ y % 100 = 0 ∨ y % 400 = 0))

/-- Number of days in a month, as enforced by the `datetime` constructor. -/

def daysInMonth (y m : Nat) : Nat :=
  if m = 2 then (if isLeap y then 29 else 28)
  else if m = 4 ∨ m = 6 ∨ m = 9 ∨ m = 11 then 30
  else 31

/-- CPython `_strptime` matches 1-2 digit numeric fields with regexes such as
`1[0-2]|0[1-9]|[1-9]` (month): a two-digit numeral whose value lies in
`[lo2, hi2]`, or a single digit in `[lo1, hi1]`.  In the formats used here a
non-digit literal (or end of input) follows each field, so committing to the
two-digit match whenever it is in range is equivalent to the backtracking
regex. -/

def parseNum2 (lo2 hi2 lo1 hi1 : Nat) : Str → Option (Nat × Str)
  | c1 :: c2 :: rest =>
    if isDig c1 = true ∧ isDig c2 = true ∧ lo2 ≤ 10 * dval c1 + dval c2 ∧
        10 * dval c1 + dval c2 ≤ hi2 then
      some (10 * dval c1 + dval c2, rest)
    else if isDig c1 = true ∧ lo1 ≤ dval c1 ∧ dval c1 ≤ hi1 then
      some (dval c1, c2 :: rest)
    else none
  | [c1] =>
    if isDig c1 = true ∧ lo1 ≤ dval c1 ∧ dval c1 ≤ hi1 then
      some (dval c1, [])
    else none
  | [] => none

/-- CPython `_strptime`'s `%Y` field: exactly four digits. -/

def parseYear4 : Str → Option (Nat × Str)
  | c1 :: c2 :: c3 :: c4 :: rest =>
    if isDig c1 = true ∧ isDig c2 = true ∧ isDig c3 = true ∧ isDig c4 = true then
      some (((dval c1 * 10 + dval c2) * 10 + dval c3) * 10 + dval c4, rest)
    else none
  | _ => none

/-- `datetime.strptime(s, '%Y-%m-%d')` succeeds: the pattern must consume the
whole string and the `datetime` constructor additionally requires
`1 <= year <= 9999` and `day <= daysInMonth`. -/

def validDateStr (cs : Str) : Bool :=
  match parseYear4 cs with
  | some (y, '-' :: r1) =>
    match parseNum2 1 12 1 9 r1 with
    | some (m, '-' :: r2) =>
      match parseNum2 1 31 1 9 r2 with
      | some (d, []) =>
        decide (1 ≤ y) && decide (y ≤ 9999) && decide (d ≤ daysInMonth y m)
      | _ => false
    | _ => false
  | _ => false

/-- `datetime.strptime(s, '%Y-%m-%d %H:%M:%S')` succeeds.  The `%S` regex
accepts 60 and 61 (leap seconds) but the `datetime` constructor rejects them,
hence the final `sec <= 59` check. -/

def validDateTimeStr (cs : Str) : Bool :=
  match parseYear4 cs with
  | some (y, '-' :: r1) =>
    match parseNum2 1 12 1 9 r1 with
    | some (m, '-' :: r2) =>
      match parseNum2 1 31 1 9 r2 with
      | some (d, ' ' :: r3) =>
        match parseNum2 0 23 0 9 r3 with
        | some (_h, ':' :: r4) =>
          match parseNum2 0 59 0 9 r4 with
          | some (_mi, ':' :: r5) =>
            match parseNum2 0 61 0 9 r5 with
            | some (sec, []) =>
              decide (1 ≤ y) && decide (y ≤ 9999) &&
                decide (d ≤ daysInMonth y m) && decide (sec ≤ 59)
            | _ => false
          | _ => false
        | _ => false
      | _ => false
    | _ => false
  | _ => false

/-- `datetime.strptime(s, '%H:%M')` succeeds; result in minutes since
midnight. -/

def parseHM (cs : Str) : Option Nat :=
  match parseNum2 0 23 0 9 cs with
  | some (h, ':' :: r1) =>
    match parseNum2 0 59 0 9 r1 with
    | some (m, []) => some (60 * h + m)
    | _ => none
  | _ => none

/-- `strftime('%m')`-style zero-padded two-digit field (`v ≤ 99`). -/

def pad2 (v : Nat) : Str := [digitCh (v / 10), digitCh (v % 10)]

/-- `strftime('%Y')`: zero-padded four-digit year (`v ≤ 9999`). -/

def pad4 (v : Nat) : Str :=
  [digitCh (v / 1000 % 10), digitCh (v / 100 % 10), digitCh (v / 10 % 10),
    digitCh (v % 10)]

/-- A Python `datetime.datetime` value at second precision (the application
formats with `%Y-%m-%d %H:%M:%S`, dropping microseconds). -/

structure PyDateTime where
  year : Nat
  month : Nat
  day : Nat
  hour : Nat
  minute : Nat
  second : Nat
deriving DecidableEq

/-- The field ranges enforced by the `datetime` constructor: every Python
`datetime` object satisfies these. -/

def PyDateTime.Valid (t : PyDateTime) : Prop :=
  1 ≤ t.year ∧ t.year ≤ 9999 ∧ 1 ≤ t.month ∧ t.month ≤ 12 ∧
    1 ≤ t.day ∧ t.day ≤ daysInMonth t.year t.month ∧
    t.hour ≤ 23 ∧ t.minute ≤ 59 ∧ t.second ≤ 59

instance (t : PyDateTime) : Decidable t.Valid := by
  unfold PyDateTime.Valid
  infer_instance

/-- `dt.strftime('%Y-%m-%d')`. -/

def fmtDate (t : PyDateTime) : Str :=
  pad4 t.year ++ '-' :: (pad2 t.month ++ '-' :: pad2 t.day)

/-- `dt.strftime('%Y-%m-%d %H:%M:%S')`. -/

def fmtDateTime (t : PyDateTime) : Str :=
  pad4 t.year ++ '-' :: (pad2 t.month ++ '-' :: (pad2 t.day ++ ' ' ::
    (pad2 t.hour ++ ':' :: (pad2 t.minute ++ ':' :: pad2 t.second))))

/-- Days in Gregorian years before year `y` (proleptic, as
`datetime.toordinal`). -/

def daysBeforeYear (y : Nat) : Nat :=
  (y - 1) * 365 + (y - 1) / 4 - (y - 1) / 100 + (y - 1) / 400

/-- Days in year `y` strictly before month `m`. -/

def daysBeforeMonth (y m : Nat) : Nat :=
  (List.range (m - 1)).foldl (fun acc k => acc + daysInMonth y (k + 1)) 0

/-- Seconds on the proleptic Gregorian timeline.  Python compares and
subtracts `datetime` objects componentwise, which on constructor-valid
values agrees with comparing/subtracting these second counts. -/

def toSecs (t : PyDateTime) : Nat :=
  ((daysBeforeYear t.year + daysBeforeMonth t.year t.month + (t.day - 1)) * 24
      + t.hour) * 3600 + t.minute * 60 + t.second

/-- Strip at most one leading sign, as the grammar of Python `float()`. -/

def stripSign : Str → Str
  | [] => []
  | c :: r => if c = '+' ∨ c = '-' then r else c :: r

/-- ASCII lower-casing, for `float()`'s case-insensitive `inf`/`nan`. -/

def lowerCh (c : Char) : Char :=
  if 65 ≤ c.toNat ∧ c.toNat ≤ 90 then Char.ofNat (c.toNat + 32) else c

/-- Exponent tail of a Python float literal: optional sign then digits. -/

def expTail (r : Str) : Bool :=
  decide (stripSign r ≠ []) && (stripSign r).all isDig

/-- Optional exponent part of a Python float literal. -/

def expOk : Str → Bool
  | [] => true
  | 'e' :: r => expTail r
  | 'E' :: r => expTail r
  | _ => false

/-- `float(s)` succeeds (Python float literal; digit-group underscores are
not modeled, the program never writes them). -/

def pyFloatParses (cs : Str) : Bool :=
  let t := stripSign (pyStrip cs)
  let tl := t.map lowerCh
  if tl = ['i', 'n', 'f'] ∨ tl = ['i', 'n', 'f', 'i', 'n', 'i', 't', 'y'] ∨
      tl = ['n', 'a', 'n'] then true
  else
    let ip := t.takeWhile isDig
    let r1 := t.dropWhile isDig
    match r1 with
    | '.' :: r2 =>
      let fp := r2.takeWhile isDig
      let r3 := r2.dropWhile isDig
      if ip = [] ∧ fp = [] then false else expOk r3
    | _ => if ip = [] then false else expOk r1

/-- Decimal digit string of a natural number, fuel-based so that it reduces
in the kernel. -/

def natToStrAux : Nat → Nat → Str
  | 0, _ => []
  | fuel + 1, n =>
    if n < 10 then [digitCh n]
    else natToStrAux fuel (n / 10) ++ [digitCh (n % 10)]

/-- Python `str` of a nonnegative integer. -/

def natToStr (n : Nat) : Str := natToStrAux (n + 1) n

/-- Floor of a rational as an integer (`q.den` is positive). -/

def ratFloor (q : ℚ) : ℤ := Int.fdiv q.num (q.den : ℤ)

/-- Python `round(x)`: round half to even, on an exact rational. -/

def roundHalfEven (q : ℚ) : ℤ :=
  let f := ratFloor q
  if q - (f : ℚ) < 1 / 2 then f
  else if (1 : ℚ) / 2 < q - (f : ℚ) then f + 1
  else if f % 2 = 0 then f else f + 1

/-- Python `round(x, 2)` on an exact rational (binary floating-point
representation error is not modeled). -/

def pyRound2 (q : ℚ) : ℚ := (roundHalfEven (q * 100) : ℚ) / 100

/-- Python `str()`/`repr()` of a float that is an exact multiple of `1/100`:
integer part, a dot, and one or two fractional digits (the shortest
representation drops a trailing zero digit). -/

def showRat2 (q : ℚ) : Str :=
  let n : ℤ := ratFloor (q * 100)
  let m : Nat := n.natAbs
  (if n < 0 then ['-'] else []) ++ natToStr (m / 100) ++ '.' ::
    (if m % 10 = 0 then [digitCh (m % 100 / 10)]
     else [digitCh (m % 100 / 10), digitCh (m % 10)])

/-- `TimeTracker._validate_log_entry`: exactly six fields; `task`,
`start_time`, `end_time`, `duration`, `date` must be non-empty after
stripping; `start_time`/`end_time` must parse with `'%Y-%m-%d %H:%M:%S'`,
`date` with `'%Y-%m-%d'`, and `duration` as a float.  `session_type` is
never inspected. -/

def validate_log_entry (parts : List Str) : Bool :=
  match parts with
  | [task, start_time, end_time, duration, date, _stype] =>
    if pyStrip task = [] ∨ pyStrip start_time = [] ∨ pyStrip end_time = [] ∨
        pyStrip duration = [] ∨ pyStrip date = [] then false
    else
      validDateTimeStr (pyStrip start_time) &&
        validDateTimeStr (pyStrip end_time) &&
        validDateStr (pyStrip date) && pyFloatParses (pyStrip duration)
  | _ => false

/-- The canonical time-log header columns. -/

def expected_header : List Str :=
  [['t', 'a', 's', 'k'],
   ['s', 't', 'a', 'r', 't', '_', 't', 'i', 'm', 'e'],
   ['e', 'n', 'd', '_', 't', 'i', 'm', 'e'],
   ['d', 'u', 'r', 'a', 't', 'i', 'o', 'n', '_', 'm', 'i', 'n', 'u', 't', 'e', 's'],
   ['d', 'a', 't', 'e'],
   ['s', 'e', 's', 's', 'i', 'o', 'n', '_', 't', 'y', 'p', 'e']]

/-- `','.join(expected_header)`. -/

def canonical_header : Str := joinComma expected_header

/-- Processing of one data line (raw index ≥ 1) of
`TimeTracker.cleanup_corrupted_data`: strip the line, skip it when blank,
split on commas, drop it when it has fewer than 6 fields, truncate to the
first 6 fields, validate, and re-join. -/

def cleanup_row (rawLine : Str) : Option Str :=
  let line := pyStrip rawLine
  if line = [] then none
  else
    let parts := splitComma line
    if 6 ≤ parts.length then
      let clean_parts := parts.take 6
      if validate_log_entry clean_parts then some (joinComma clean_parts)
      else none
    else none

/-- `TimeTracker.cleanup_corrupted_data` applied to the raw lines of
`time_logs.csv`.  The loop tests the raw enumeration index: the line at
index 0 becomes the canonical header only if it is non-blank (a blank line
is skipped by `continue` before the index test); every later line goes
through `cleanup_row`. -/

def cleanup_corrupted_data (lines : List Str) : List Str :=
  match lines with
  | [] => []
  | first :: rest =>
    (if pyStrip first = [] then [] else [canonical_header]) ++
      rest.filterMap cleanup_row

/-- The rewrite loop writes `line + '\n'` for each cleaned line; reading the
file back with `readlines()` returns exactly these newline-terminated
strings. -/

def writeLines (l : List Str) : List Str := l.map (fun s => s ++ ['\n'])

/-- Error kinds of the store.  The source raises `ValueError` with distinct
messages; the specification names the kinds `ValidationError`,
`DuplicateError` and `ConflictError`. -/

inductive StoreError
  | validationError
  | duplicateError
  | conflictError
deriving DecidableEq

/-- One data row of `time_logs.csv`, typed.  The CSV cells are the six
strings produced by `serialize_log_entry`; `duration_minutes` round-trips
exactly because it is always a multiple of `1/100`. -/

structure LogRow where
  task : Str
  start_time : Str
  end_time : Str
  duration_minutes : ℚ
  date : Str
  session_type : Str
deriving DecidableEq

/-- One row of `tasks.csv`.  `none` models a NaN / missing cell (rows added
by `update_all_task_totals` have only `task_name` and `total_time_minutes`
populated); a `total_time_minutes` cell that does not parse as a number is
also modeled as `none` (`pd.to_numeric(errors='coerce')` turns it into NaN
before `fillna(0)`). -/

structure TaskRow where
  task_name : Str
  status : Option Str
  created_date : Option Str
  total_time_minutes : Option ℚ
deriving DecidableEq

/-- One row of `schedule_blocks.csv`. -/

structure BlockRow where
  date : Str
  start_time : Str
  end_time : Str
  task_name : Str
  block_type : Str
  notes : Str
  completed : Bool
deriving DecidableEq

/-- The persistent and in-memory state of a `TimeTracker` instance: the data
rows of the three CSV files plus the `_data_cache` field (which caches the
time-log table only). -/

structure TrackerState where
  time_logs : List LogRow
  tasks : List TaskRow
  schedule_blocks : List BlockRow
  data_cache : Option (List LogRow)
deriving DecidableEq

def work_str : Str := ['w', 'o', 'r', 'k']

def active_str : Str := ['a', 'c', 't', 'i', 'v', 'e']

/-- The list `log_entry` built by `TimeTracker.log_time` and handed to
`_validate_log_entry` (with `str()` applied to the float). -/

def serialize_log_entry (r : LogRow) : List Str :=
  [r.task, r.start_time, r.end_time, showRat2 r.duration_minutes, r.date,
    r.session_type]

/-- `(end_time - start_time).total_seconds() / 60`. -/

def logDuration (s e : PyDateTime) : ℚ :=
  ((toSecs e : ℚ) - (toSecs s : ℚ)) / 60

/-- The row assembled by `TimeTracker.log_time`: stripped task, formatted
timestamps, `round(duration, 2)`, the start date, and
`session_type or "work"` (an empty/falsy session type is replaced by
`"work"`). -/

def buildLogEntry (task : Str) (s e : PyDateTime) (session_type : Str) : LogRow :=
  { task := pyStrip task
    start_time := fmtDateTime s
    end_time := fmtDateTime e
    duration_minutes := pyRound2 (logDuration s e)
    date := fmtDate s
    session_type := if session_type = [] then work_str else session_type }

/-- `pd.to_numeric(..., errors='coerce').fillna(0)` on one cell. -/

def coerceTotal : Option ℚ → ℚ
  | none => 0
  | some q => q

/-- `TimeTracker.update_task_total_time`: if some row matches the (raw)
task name, coerce the whole `total_time_minutes` column to numbers, add
`duration` to the matching rows, and write the whole table back; otherwise
log a warning and leave the table unchanged. -/

def update_task_total_time (tasks : List TaskRow) (task_name : Str)
    (duration : ℚ) : List TaskRow :=
  if tasks.any (fun r => r.task_name = task_name) then
    tasks.map (fun r =>
      let newTotal := coerceTotal r.total_time_minutes +
        (if r.task_name = task_name then duration else 0)
      { r with total_time_minutes := some newTotal })
  else tasks

/-- `TimeTracker.add_task`: empty/whitespace name fails; a task whose stored
`task_name` equals the *raw* argument fails as a duplicate (the check does
not strip the argument and does not look at `status`); otherwise append a
row with the *stripped* name, status `active`, the current timestamp and
total `0`. -/

def add_task (st : TrackerState) (task_name : Str) (now : Str) :
    Except StoreError TrackerState :=
  if task_name = [] ∨ pyStrip task_name = [] then .error .validationError
  else if st.tasks.any (fun r => r.task_name = task_name) then
    .error .duplicateError
  else
    let newRow : TaskRow :=
      { task_name := pyStrip task_name
        status := some active_str
        created_date := some now
        total_time_minutes := some 0 }
    .ok { st with tasks := st.tasks ++ [newRow] }

/-- `TimeTracker.get_time_logs`: reload from disk when `force_reload` is set
or no cached copy exists (storing the fresh copy in `_data_cache`);
otherwise return the cached copy. -/

def get_time_logs (st : TrackerState) (force_reload : Bool) :
    List LogRow × TrackerState :=
  if force_reload then
    (st.time_logs, { st with data_cache := some st.time_logs })
  else
    match st.data_cache with
    | none => (st.time_logs, { st with data_cache := some st.time_logs })
    | some cached => (cached, st)

/-- `TimeTracker.log_time`: validate, build the row, re-validate the
serialized entry (defense in depth), append it (without touching
`_data_cache`), then apply the incremental total update with the *raw* task
name and the *unrounded* duration.  `start_time >= end_time` is compared on
the timeline (equivalent to Python's componentwise `datetime` comparison
for constructor-valid values). -/

def log_time (st : TrackerState) (task : Str) (s e : PyDateTime)
    (session_type : Str) : Except StoreError TrackerState :=
  if task = [] ∨ pyStrip task = [] then .error .validationError
  else if toSecs e ≤ toSecs s then .error .validationError
  else
    let duration := logDuration s e
    if duration ≤ 0 then .error .validationError
    else
      let row := buildLogEntry task s e session_type
      if validate_log_entry (serialize_log_entry row) then
        .ok { st with
          time_logs := st.time_logs ++ [row]
          tasks := update_task_total_time st.tasks task duration }
      else .error .validationError

/-- Lexicographic order on strings by code point (Python `str` ordering),
used because `groupby` sorts its keys. -/

def strLe : Str → Str → Bool
  | [], _ => true
  | _ :: _, [] => false
  | a :: as, b :: bs =>
    if a.toNat < b.toNat then true
    else if b.toNat < a.toNat then false
    else strLe as bs

instance : DecidableRel (fun a b : Str => strLe a b = true) :=
  fun _ _ => instDecidableEqBool _ _

/-- Total `duration_minutes` of all log rows for one task name
(`logs_df.groupby('task')['duration_minutes'].sum()` for that key). -/

def sumDur (logs : List LogRow) (name : Str) : ℚ :=
  ((logs.filter (fun l => l.task = name)).map (fun l => l.duration_minutes)).sum

/-- One iteration of the update loop of `update_all_task_totals`: overwrite
the matching task's total with the group sum, or append a new row carrying
only the name and the total. -/

def apply_task_total (logs : List LogRow) (tasks : List TaskRow) (name : Str) :
    List TaskRow :=
  if tasks.any (fun r => r.task_name = name) then
    tasks.map (fun r =>
      if r.task_name = name then
        { r with total_time_minutes := some (sumDur logs name) }
      else r)
  else
    let newRow : TaskRow :=
      { task_name := name
        status := none
        created_date := none
        total_time_minutes := some (sumDur logs name) }
    tasks ++ [newRow]

/-- The sorted unique task names of the log table — the iteration order of
`groupby('task')`. -/

def groupKeys (logs : List LogRow) : List Str :=
  List.insertionSort (fun a b => strLe a b = true)
    ((logs.map (fun l => l.task)).dedup)

/-- `update_all_task_totals` on the tables it reads: returns immediately on
an empty log table, otherwise updates/appends one task per group and writes
the result once. -/

def update_all_task_totals_core (logs : List LogRow) (tasks : List TaskRow) :
    List TaskRow :=
  if logs = [] then tasks
  else (groupKeys logs).foldl (apply_task_total logs) tasks

/-- `TimeTracker.update_all_task_totals`: reads the logs through the cache
(`get_time_logs()` without force) and rewrites the task table. -/

def update_all_task_totals (st : TrackerState) : TrackerState :=
  let p := get_time_logs st false
  { p.2 with tasks := update_all_task_totals_core p.1 p.2.tasks }

/-- The conflict loop of `TimeTracker._has_time_conflict`: blocks are
scanned in file order; a block whose stored times fail to parse raises
inside the `try`, and the surrounding `except` returns `False` for the
whole check. -/

def conflictScan (sm em : Nat) : List BlockRow → Bool
  | [] => false
  | b :: rest =>
    match parseHM b.start_time, parseHM b.end_time with
    | some bs, some be =>
      if sm < be ∧ em > bs then true else conflictScan sm em rest
    | _, _ => false

/-- `TimeTracker._has_time_conflict date start end`: parse the new times
(prefixed by the same `date`, so the date must parse too), then scan the
blocks of that date for a half-open interval overlap. -/

def has_time_conflict (blocks : List BlockRow) (date s e : Str) : Bool :=
  if validDateStr date = true then
    match parseHM s, parseHM e with
    | some sm, some em =>
      conflictScan sm em (blocks.filter (fun b => b.date = date))
    | _, _ => false
  else false

/-- `TimeTracker.add_schedule_block`: required fields must be truthy
(non-empty), the times must parse with `'%H:%M'` and the date with
`'%Y-%m-%d'` (else `ValueError`), a conflict raises, and on success the
block is appended with `completed = False` (task name and notes
stripped). -/

def add_schedule_block (st : TrackerState) (date s e task_name block_type
    notes : Str) : Except StoreError TrackerState :=
  if date = [] ∨ s = [] ∨ e = [] ∨ task_name = [] then .error .validationError
  else if ¬ (parseHM s).isSome then .error .validationError
  else if ¬ (parseHM e).isSome then .error .validationError
  else if validDateStr date ≠ true then .error .validationError
  else if has_time_conflict st.schedule_blocks date s e then
    .error .conflictError
  else
    let newBlock : BlockRow :=
      { date := date
        start_time := s
        end_time := e
        task_name := pyStrip task_name
        block_type := block_type
        notes := pyStrip notes
        completed := false }
    .ok { st with schedule_blocks := st.schedule_blocks ++ [newBlock] }

/-- A primitive file-system effect of the store. -/

inductive FsOp
  | writeTempFile (path : Str) (rows : List Str)
  | atomicMove (src dst : Str)
  | truncWrite (path : Str) (lines : List Str)
  | appendLine (path : Str) (line : Str)
deriving DecidableEq

def tmp_suffix : Str := ['.', 't', 'm', 'p']

def time_logs_path : Str :=
  ['t', 'i', 'm', 'e', '_', 'l', 'o', 'g', 's', '.', 'c', 's', 'v']

/-- `_safe_file_operation(path, 'write', data)`: serialize the rows to
`path + '.tmp'`, then `shutil.move` the temporary file over the
destination. -/

def safe_write_trace (path : Str) (rows : List Str) : List FsOp :=
  [.writeTempFile (path ++ tmp_suffix) rows,
    .atomicMove (path ++ tmp_suffix) path]

/-- The final rewrite of `cleanup_corrupted_data` (lines 104-107 of
`time_tracker.py`): `open(self.csv_file, 'w')` and write each cleaned line
— an in-place truncating rewrite of the destination itself. -/

def cleanup_write_trace (lines : List Str) : List FsOp :=
  [.truncWrite time_logs_path (cleanup_corrupted_data lines)]

/-- A trace performs a whole-file replacement of `dest` following the
atomic-write protocol: serialize to a distinct temporary path, then
atomically move it over the destination; in particular the destination is
never opened for truncating write. -/

def followsAtomicWrite (dest : Str) (t : List FsOp) : Bool :=
  match t with
  | [FsOp.writeTempFile p _, FsOp.atomicMove p2 d] =>
    decide (p = p2) && decide (d = dest) && decide (¬ p = dest)
  | _ => false

/-- `PomodoroTimer` state.  Times and durations are rationals;
`current_session_start` (UI-only) is not modeled. -/

structure PomodoroTimer where
  work_duration : ℚ
  break_duration : ℚ
  long_break_duration : ℚ
  is_running : Bool
  is_break : Bool
  session_count : Nat
  start_time : Option ℚ
  remaining_time : ℚ
  just_completed : Bool
deriving DecidableEq

/-- `PomodoroTimer.__init__` with the in-code default durations. -/

def initialTimer : PomodoroTimer :=
  { work_duration := 20
    break_duration := 5
    long_break_duration := 10
    is_running := false
    is_break := false
    session_count := 0
    start_time := none
    remaining_time := 20 * 60
    just_completed := false }

/-- `PomodoroTimer.start_timer` at wall-clock time `now`. -/

def start_timer (t : PomodoroTimer) (now : ℚ) : PomodoroTimer :=
  { t with
    is_running := true
    start_time := some now }

/-- `PomodoroTimer.stop_timer`. -/

def stop_timer (t : PomodoroTimer) : PomodoroTimer :=
  { t with is_running := false }

/-- `PomodoroTimer.reset_timer`. -/

def reset_timer (t : PomodoroTimer) : PomodoroTimer :=
  { t with
    is_running := false
    is_break := false
    session_count := 0
    remaining_time := t.work_duration * 60 }

/-- `PomodoroTimer.update_timer` polled at wall-clock `now`: while running
(and started — a `0.0` start timestamp would be falsy too, which cannot
occur for real wall-clock times), recompute `remaining_time` as
`max(0, current_duration * 60 - elapsed)`.  The long-break duration is used
only when `is_break and session_count >= 4`. -/

def update_timer (t : PomodoroTimer) (now : ℚ) : PomodoroTimer :=
  match t.start_time with
  | none => t
  | some t0 =>
    if t.is_running then
      let elapsed := now - t0
      let current1 := if t.is_break then t.break_duration else t.work_duration
      let current := if t.is_break ∧ 4 ≤ t.session_count then
        t.long_break_duration else current1
      { t with remaining_time := max 0 (current * 60 - elapsed) }
    else t

/-- `PomodoroTimer.complete_session`: after a work session, increment the
session count and start a break (remaining time from `break_duration`,
then overridden with `long_break_duration` — and the count reset to 0 —
when the incremented count reaches 4); after a break, return to work. -/

def complete_session (t : PomodoroTimer) : PomodoroTimer :=
  if ¬ t.is_break then
    let c := t.session_count + 1
    if 4 ≤ c then
      { t with
        is_running := false
        just_completed := true
        is_break := true
        session_count := 0
        remaining_time := t.long_break_duration * 60 }
    else
      { t with
        is_running := false
        just_completed := true
        is_break := true
        session_count := c
        remaining_time := t.break_duration * 60 }
  else
    { t with
      is_running := false
      just_completed := true
      is_break := false
      remaining_time := t.work_duration * 60 }

/-- 2024-01-01 09:00:00. -/

def dt0900 : PyDateTime := ⟨2024, 1, 1, 9, 0, 0⟩

/-- 2024-01-01 09:25:00. -/

def dt0925 : PyDateTime := ⟨2024, 1, 1, 9, 25, 0⟩

def task_a : Str := ['a']

def archived_str : Str := ['a', 'r', 'c', 'h', 'i', 'v', 'e', 'd']

/-- An active task row named `a` with total `0`. -/

def rowA : TaskRow := ⟨['a'], some active_str, none, some 0⟩

/-- An archived task row named `a`. -/

def rowArchivedA : TaskRow := ⟨['a'], some archived_str, none, some 0⟩

/-- A tracker whose log file is empty and whose `_data_cache` already holds
a (stale) copy of it. -/

def stCached : TrackerState := ⟨[], [rowA], [], some []⟩

/-- A tracker that only has the archived task `a`. -/

def stArchived : TrackerState := ⟨[], [rowArchivedA], [], none⟩

/-- A tracker that only has the active task `a`. -/

def stActiveA : TrackerState := ⟨[], [rowA], [], none⟩

def scen_date : Str := ['2', '0', '2', '4', '-', '0', '1', '-', '0', '1']

def hm0900 : Str := ['0', '9', ':', '0', '0']

def hm1000 : Str := ['1', '0', ':', '0', '0']

def hm0930 : Str := ['0', '9', ':', '3', '0']

def hm1030 : Str := ['1', '0', ':', '3', '0']

def focus_str : Str := ['F', 'o', 'c', 'u', 's']

def other_str : Str := ['O', 't', 'h', 'e', 'r']

def meeting_str : Str := ['m', 'e', 'e', 't', 'i', 'n', 'g']

/-- Scenario C's existing block: 09:00-10:00 "Focus"/work on 2024-01-01. -/

def blockFocus : BlockRow := ⟨scen_date, hm0900, hm1000, focus_str, work_str, [], false⟩

/-- A tracker holding only scenario C's first block. -/

def stSchedule : TrackerState := ⟨[], [], [blockFocus], none⟩

/-- A valid serialized time-log data row (duration cell `25.0`). -/

def demoRow : Str :=
  joinComma [['a'], fmtDateTime dt0900, fmtDateTime dt0925,
    ['2', '5', '.', '0'], fmtDate dt0900, work_str]

/-- A raw `time_logs.csv` whose first line is blank and whose second line is
a valid data row. -/

def demoLines : List Str := [['\n'], demoRow ++ ['\n']]

/-- The timer state right after `complete_session` ends the fourth work
session: a long break of `10 * 60` seconds has just been scheduled and
`session_count` was reset to 0. -/

def pomAfterFourthWork : PomodoroTimer :=
  complete_session
    { initialTimer with
      is_running := true
      start_time := some 0
      session_count := 3 }

set_option maxRecDepth 100000

/-- The state produced by a successful `log_time` on `stCached`. -/

def stC1 : TrackerState :=
  { stCached with
    time_logs := stCached.time_logs ++ [buildLogEntry task_a dt0900 dt0925 work_str]
    tasks := update_task_total_time stCached.tasks task_a
      (logDuration dt0900 dt0925) }

/-- A typed time-log row for task `b` with duration `25` minutes. -/

def logRowB : LogRow :=
  ⟨['b'], fmtDateTime dt0900, fmtDateTime dt0925, 25, fmtDate dt0900, work_str⟩

def demoLogs : List LogRow := [logRowB]

def demoTasks : List TaskRow := [rowA]

def lunch_str : Str := ['l', 'u', 'n', 'c', 'h']

namespace StrLemmas

theorem dropWhile_append (p : Char → Bool) (xs ys : Str) :
    (xs ++ ys).dropWhile p =
      if xs.dropWhile p = [] then ys.dropWhile p else xs.dropWhile p ++ ys := by
  induction xs with
  | nil => simp
  | cons a xs ih =>
    by_cases h : p a
    · simpa [List.dropWhile_cons, h] using ih
    · simp [List.dropWhile_cons, h]

theorem dropWhile_idem (p : Char → Bool) (xs : Str) :
    (xs.dropWhile p).dropWhile p = xs.dropWhile p := by
  induction xs with
  | nil => rfl
  | cons a xs ih =>
    by_cases h : p a
    · simpa [List.dropWhile_cons, h] using ih
    · simp [List.dropWhile_cons, h]

theorem dropWhile_eq_nil_iff' (p : Char → Bool) (xs : Str) :
    xs.dropWhile p = [] ↔ ∀ c ∈ xs, p c := by
  induction xs with
  | nil => simp
  | cons a xs ih =>
    by_cases h : p a
    · simp [List.dropWhile_cons, h, ih]
    · simp [List.dropWhile_cons, h]

theorem lstrip_idem (xs : Str) : lstrip (lstrip xs) = lstrip xs :=
  dropWhile_idem _ _

theorem rstrip_idem (xs : Str) : rstrip (rstrip xs) = rstrip xs := by
  unfold rstrip
  rw [List.reverse_reverse, dropWhile_idem]

theorem rstrip_cons (c : Char) (xs : Str) :
    rstrip (c :: xs) =
      if rstrip xs = [] ∧ isPySpace c then [] else c :: rstrip xs := by
  unfold rstrip
  rw [show (c :: xs).reverse = xs.reverse ++ [c] by simp,
    dropWhile_append]
  by_cases h : xs.reverse.dropWhile isPySpace = []
  · by_cases hc : isPySpace c <;>
      simp [h, List.dropWhile_cons, hc]
  · have : ¬((xs.reverse.dropWhile isPySpace).reverse = [] ∧ isPySpace c) := by
      intro hcontra
      exact h (by simpa using hcontra.1)
    simp [h, this]

theorem rstrip_eq_nil_iff (xs : Str) : rstrip xs = [] ↔ ∀ c ∈ xs, isPySpace c := by
  unfold rstrip
  rw [List.reverse_eq_nil_iff, dropWhile_eq_nil_iff']
  constructor
  · intro h c hc
    exact h c (by simpa using hc)
  · intro h c hc
    exact h c (by simpa using hc)

theorem lstrip_eq_nil_iff (xs : Str) : lstrip xs = [] ↔ ∀ c ∈ xs, isPySpace c :=
  dropWhile_eq_nil_iff' _ _

theorem lstrip_rstrip_comm (xs : Str) : lstrip (rstrip xs) = rstrip (lstrip xs) := by
  induction xs with
  | nil => rfl
  | cons c xs ih =>
    cases hc : isPySpace c with
    | true =>
      by_cases hnil : rstrip xs = []
      · have hall : ∀ a ∈ xs, isPySpace a := (rstrip_eq_nil_iff xs).1 hnil
        have hl : lstrip xs = [] := (lstrip_eq_nil_iff xs).2 hall
        have h1 : rstrip (c :: xs) = [] := by
          rw [rstrip_cons]
          simp [hnil, hc]
        have h2 : lstrip (c :: xs) = lstrip xs := by
          simp [lstrip, List.dropWhile_cons, hc]
        rw [h1, h2, hl]
        rfl
      · have hcond : ¬(rstrip xs = [] ∧ isPySpace c) := fun h => hnil h.1
        have h1 : rstrip (c :: xs) = c :: rstrip xs := by
          rw [rstrip_cons]
          simp [hcond]
        have h2 : lstrip (c :: rstrip xs) = lstrip (rstrip xs) := by
          simp [lstrip, List.dropWhile_cons, hc]
        have h3 : lstrip (c :: xs) = lstrip xs := by
          simp [lstrip, List.dropWhile_cons, hc]
        rw [h1, h2, h3]
        exact ih
    | false =>
      have hcond : ¬(rstrip xs = [] ∧ isPySpace c) := by
        intro h
        rw [hc] at h
        exact Bool.false_ne_true h.2
      have h1 : rstrip (c :: xs) = c :: rstrip xs := by
        rw [rstrip_cons]
        simp [hcond]
      have h2 : lstrip (c :: rstrip xs) = c :: rstrip xs := by
        simp [lstrip, List.dropWhile_cons, hc]
      have h3 : lstrip (c :: xs) = c :: xs := by
        simp [lstrip, List.dropWhile_cons, hc]
      rw [h1, h2, h3, rstrip_cons]
      simp [hcond]

theorem pyStrip_lstrip (xs : Str) : pyStrip (lstrip xs) = pyStrip xs :=
  congrArg rstrip (lstrip_idem xs)

theorem pyStrip_rstrip (xs : Str) : pyStrip (rstrip xs) = pyStrip xs := by
  show rstrip (lstrip (rstrip xs)) = rstrip (lstrip xs)
  rw [lstrip_rstrip_comm xs, rstrip_idem]

theorem pyStrip_idem (xs : Str) : pyStrip (pyStrip xs) = pyStrip xs := by
  show rstrip (lstrip (rstrip (lstrip xs))) = rstrip (lstrip xs)
  rw [lstrip_rstrip_comm (lstrip xs), rstrip_idem, lstrip_idem]

theorem pyStrip_append_space (xs : Str) (c : Char) (hc : isPySpace c = true) :
    pyStrip (xs ++ [c]) = pyStrip xs := by
  have h1 : rstrip (xs ++ [c]) = rstrip xs := by
    unfold rstrip
    rw [List.reverse_append]
    simp [List.dropWhile_cons, hc]
  calc pyStrip (xs ++ [c]) = pyStrip (rstrip (xs ++ [c])) := (pyStrip_rstrip _).symm
    _ = pyStrip (rstrip xs) := by rw [h1]
    _ = pyStrip xs := pyStrip_rstrip _

theorem all_space_lstrip (xs : Str) :
    (∀ c ∈ lstrip xs, isPySpace c = true) ↔ (∀ c ∈ xs, isPySpace c = true) := by
  induction xs with
  | nil => simp [lstrip]
  | cons a xs ih =>
    cases ha : isPySpace a with
    | true =>
      rw [show lstrip (a :: xs) = lstrip xs by simp [lstrip, List.dropWhile_cons, ha],
        ih]
      constructor
      · intro h c hc
        rcases List.mem_cons.1 hc with h1 | h1
        · rw [h1]; exact ha
        · exact h c h1
      · intro h c hc
        exact h c (List.mem_cons_of_mem _ hc)
    | false =>
      rw [show lstrip (a :: xs) = a :: xs by simp [lstrip, List.dropWhile_cons, ha]]

theorem pyStrip_eq_nil_iff (xs : Str) : pyStrip xs = [] ↔ ∀ c ∈ xs, isPySpace c := by
  unfold pyStrip
  rw [rstrip_eq_nil_iff]
  exact all_space_lstrip xs

theorem pyStrip_ne_nil_of_mem (xs : Str) (c : Char) (hc : c ∈ xs)
    (hsp : isPySpace c = false) : pyStrip xs ≠ [] := by
  intro h
  have := (pyStrip_eq_nil_iff xs).1 h c hc
  rw [hsp] at this
  exact Bool.false_ne_true this

theorem lstrip_cons_of_not_space (c : Char) (xs : Str) (h : isPySpace c = false) :
    lstrip (c :: xs) = c :: xs := by
  simp [lstrip, List.dropWhile_cons, h]

theorem rstrip_append_of_not_space (xs ys : Str) (c : Char)
    (h : isPySpace c = false) :
    rstrip (xs ++ ys ++ [c]) = xs ++ ys ++ [c] := by
  unfold rstrip
  rw [List.reverse_append]
  simp [List.dropWhile_cons, h]

end StrLemmas

namespace StrLemmas

theorem splitComma_exists_cons (cs : Str) : ∃ g gs, splitComma cs = g :: gs := by
  induction cs with
  | nil => exact ⟨[], [], rfl⟩
  | cons c rest ih =>
    obtain ⟨g, gs, hg⟩ := ih
    by_cases hc : c = ','
    · exact ⟨[], splitComma rest, by simp [splitComma, hc]⟩
    · exact ⟨c :: g, gs, by simp [splitComma, hc, hg]⟩

theorem joinComma_cons_cons (c : Char) (g : Str) (gs : List Str) :
    joinComma ((c :: g) :: gs) = c :: joinComma (g :: gs) := by
  cases gs <;> rfl

theorem joinComma_splitComma (cs : Str) : joinComma (splitComma cs) = cs := by
  induction cs with
  | nil => rfl
  | cons c rest ih =>
    by_cases hc : c = ','
    · obtain ⟨g, gs, hg⟩ := splitComma_exists_cons rest
      subst hc
      rw [show splitComma (',' :: rest) = [] :: splitComma rest by simp [splitComma],
        hg]
      show ',' :: joinComma (g :: gs) = ',' :: rest
      rw [← hg, ih]
    · obtain ⟨g, gs, hg⟩ := splitComma_exists_cons rest
      rw [show splitComma (c :: rest) = (c :: g) :: gs by simp [splitComma, hc, hg],
        joinComma_cons_cons, ← hg, ih]

theorem not_comma_mem_splitComma (cs : Str) (g : Str) (hg : g ∈ splitComma cs) :
    ',' ∉ g := by
  induction cs generalizing g with
  | nil =>
    simp [splitComma] at hg
    simp [hg]
  | cons c rest ih =>
    by_cases hc : c = ','
    · rw [show splitComma (c :: rest) = [] :: splitComma rest by simp [splitComma, hc]] at hg
      rcases List.mem_cons.1 hg with h | h
      · simp [h]
      · exact ih g h
    · obtain ⟨g0, gs, hg0⟩ := splitComma_exists_cons rest
      rw [show splitComma (c :: rest) = (c :: g0) :: gs by simp [splitComma, hc, hg0]] at hg
      rcases List.mem_cons.1 hg with h | h
      · subst h
        intro hmem
        rcases List.mem_cons.1 hmem with h1 | h1
        · exact hc h1.symm
        · exact ih g0 (by rw [hg0]; exact List.mem_cons_self _ _) h1
      · exact ih g (by rw [hg0]; exact List.mem_cons_of_mem _ h)

theorem splitComma_no_comma (g : Str) (h : ',' ∉ g) : splitComma g = [g] := by
  induction g with
  | nil => rfl
  | cons c rest ih =>
    have hc : ¬(c = ',') := fun hcc => h (by rw [hcc]; exact List.mem_cons_self _ _)
    have hrest : ',' ∉ rest := fun hm => h (List.mem_cons_of_mem _ hm)
    simp [splitComma, hc, ih hrest]

theorem splitComma_append_comma (g t : Str) (h : ',' ∉ g) :
    splitComma (g ++ ',' :: t) = g :: splitComma t := by
  induction g with
  | nil => simp [splitComma]
  | cons c rest ih =>
    have hc : ¬(c = ',') := fun hcc => h (by rw [hcc]; exact List.mem_cons_self _ _)
    have hrest : ',' ∉ rest := fun hm => h (List.mem_cons_of_mem _ hm)
    rw [List.cons_append]
    simp [splitComma, hc, ih hrest]

theorem splitComma_joinComma (gs : List Str) (g : Str)
    (h : ∀ x ∈ g :: gs, ',' ∉ x) :
    splitComma (joinComma (g :: gs)) = g :: gs := by
  induction gs generalizing g with
  | nil => exact splitComma_no_comma g (h g (List.mem_cons_self _ _))
  | cons g2 gs ih =>
    rw [show joinComma (g :: g2 :: gs) = g ++ ',' :: joinComma (g2 :: gs) from rfl,
      splitComma_append_comma _ _ (h g (List.mem_cons_self _ _)),
      ih g2 (fun x hx => h x (List.mem_cons_of_mem _ hx))]

end StrLemmas

namespace StrLemmas

theorem comma_not_space : isPySpace ',' = false := by decide

theorem ne_comma_of_space (c : Char) (hc : isPySpace c = true) : ¬(c = ',') := by
  intro h
  rw [h, comma_not_space] at hc
  simp at hc

theorem splitComma_lstrip (cs : Str) :
    splitComma (lstrip cs) = modHead lstrip (splitComma cs) := by
  induction cs with
  | nil => rfl
  | cons c rest ih =>
    obtain ⟨g, gs, hg⟩ := splitComma_exists_cons rest
    cases hc : isPySpace c with
    | true =>
      have hcc : ¬(c = ',') := ne_comma_of_space c hc
      have h1 : lstrip (c :: rest) = lstrip rest := by
        simp [lstrip, List.dropWhile_cons, hc]
      rw [h1, ih, hg,
        show splitComma (c :: rest) = (c :: g) :: gs by simp [splitComma, hcc, hg]]
      show lstrip g :: gs = lstrip (c :: g) :: gs
      rw [show lstrip (c :: g) = lstrip g by simp [lstrip, List.dropWhile_cons, hc]]
    | false =>
      have h1 : lstrip (c :: rest) = c :: rest :=
        lstrip_cons_of_not_space c rest hc
      rw [h1]
      by_cases hcc : c = ','
      · rw [show splitComma (c :: rest) = [] :: splitComma rest by
            simp [splitComma, hcc]]
        rfl
      · rw [show splitComma (c :: rest) = (c :: g) :: gs by
            simp [splitComma, hcc, hg]]
        show (c :: g) :: gs = lstrip (c :: g) :: gs
        rw [lstrip_cons_of_not_space c g hc]

theorem splitComma_rstrip (cs : Str) :
    splitComma (rstrip cs) = modLast rstrip (splitComma cs) := by
  induction cs with
  | nil => rfl
  | cons c rest ih =>
    obtain ⟨g0, gs, hg⟩ := splitComma_exists_cons rest
    rw [rstrip_cons]
    by_cases hcond : rstrip rest = [] ∧ isPySpace c
    · obtain ⟨hnil, hc⟩ := hcond
      have hcc : ¬(c = ',') := ne_comma_of_space c hc
      have hall : ∀ a ∈ rest, isPySpace a := (rstrip_eq_nil_iff rest).1 hnil
      have hnc : ',' ∉ rest := by
        intro hmem
        have := hall ',' hmem
        rw [comma_not_space] at this
        exact Bool.false_ne_true this
      rw [if_pos ⟨hnil, hc⟩,
        show splitComma (c :: rest) = (c :: rest) :: [] by
          simp [splitComma, hcc, splitComma_no_comma rest hnc]]
      show [[]] = [rstrip (c :: rest)]
      rw [rstrip_cons, if_pos ⟨hnil, hc⟩]
    · rw [if_neg hcond]
      by_cases hcc : c = ','
      · subst hcc
        rw [show splitComma (',' :: rstrip rest) = [] :: splitComma (rstrip rest) by
            simp [splitComma],
          show splitComma (',' :: rest) = [] :: splitComma rest by
            simp [splitComma],
          ih, hg]
        rfl
      · obtain ⟨h0, hs, hh⟩ := splitComma_exists_cons (rstrip rest)
        rw [show splitComma (c :: rstrip rest) = (c :: h0) :: hs by
            simp [splitComma, hcc, hh],
          show splitComma (c :: rest) = (c :: g0) :: gs by
            simp [splitComma, hcc, hg]]
        have hih : h0 :: hs = modLast rstrip (g0 :: gs) := by rw [← hh, ih, hg]
        cases gs with
        | nil =>
          have h0eq : h0 = rstrip g0 := by
            have := hih
            simp [modLast] at this
            exact this.1
          have hseq : hs = [] := by
            have := hih
            simp [modLast] at this
            exact this.2
          have hrg : rest = g0 := by
            have := joinComma_splitComma rest
            rw [hg] at this
            exact this.symm
          subst h0eq hseq hrg
          show [c :: rstrip rest] = modLast rstrip [c :: rest]
          rw [show modLast rstrip [c :: rest] = [rstrip (c :: rest)] from rfl,
            rstrip_cons, if_neg hcond]
        | cons g1 gs1 =>
          have h0eq : h0 = g0 := by
            have := hih
            rw [show modLast rstrip (g0 :: g1 :: gs1) = g0 :: modLast rstrip (g1 :: gs1)
              from rfl] at this
            exact (List.cons_eq_cons.1 this).1
          have hseq : hs = modLast rstrip (g1 :: gs1) := by
            have := hih
            rw [show modLast rstrip (g0 :: g1 :: gs1) = g0 :: modLast rstrip (g1 :: gs1)
              from rfl] at this
            exact (List.cons_eq_cons.1 this).2
          subst h0eq hseq
          rfl

theorem splitComma_pyStrip (cs : Str) :
    splitComma (pyStrip cs) = modLast rstrip (modHead lstrip (splitComma cs)) := by
  unfold pyStrip
  rw [splitComma_rstrip, splitComma_lstrip]

theorem map_pyStrip_modHead (S : List Str) :
    (modHead lstrip S).map pyStrip = S.map pyStrip := by
  cases S with
  | nil => rfl
  | cons g gs => simp [modHead, pyStrip_lstrip]

theorem map_pyStrip_modLast (S : List Str) :
    (modLast rstrip S).map pyStrip = S.map pyStrip := by
  induction S with
  | nil => rfl
  | cons g gs ih =>
    cases gs with
    | nil => simp [modLast, pyStrip_rstrip]
    | cons g2 gs2 =>
      rw [show modLast rstrip (g :: g2 :: gs2) = g :: modLast rstrip (g2 :: gs2)
        from rfl]
      rw [List.map_cons, ih]
      rfl

theorem map_pyStrip_splitComma_pyStrip (cs : Str) :
    (splitComma (pyStrip cs)).map pyStrip = (splitComma cs).map pyStrip := by
  rw [splitComma_pyStrip, map_pyStrip_modLast, map_pyStrip_modHead]

theorem length_modHead (f : Str → Str) (S : List Str) :
    (modHead f S).length = S.length := by
  cases S <;> rfl

theorem length_modLast (f : Str → Str) (S : List Str) :
    (modLast f S).length = S.length := by
  induction S with
  | nil => rfl
  | cons g gs ih =>
    cases gs with
    | nil => rfl
    | cons g2 gs2 =>
      rw [show modLast f (g :: g2 :: gs2) = g :: modLast f (g2 :: gs2) from rfl,
        List.length_cons, ih]
      rfl

theorem length_splitComma_pyStrip (cs : Str) :
    (splitComma (pyStrip cs)).length = (splitComma cs).length := by
  rw [splitComma_pyStrip, length_modLast, length_modHead]

end StrLemmas

namespace ParseLemmas

theorem digitCh_isDig : ∀ d, d < 10 → isDig (digitCh d) = true := by decide

theorem digitCh_dval : ∀ d, d < 10 → dval (digitCh d) = d := by decide

theorem digitCh_not_space : ∀ d, d < 10 → isPySpace (digitCh d) = false := by decide

theorem daysInMonth_le_31 (y m : Nat) : daysInMonth y m ≤ 31 := by
  unfold daysInMonth
  split
  · split <;> omega
  · split <;> omega

end ParseLemmas

namespace ParseLemmas

theorem parseNum2_pad2 (lo2 hi2 lo1 hi1 v : Nat) (rest : Str)
    (h1 : lo2 ≤ v) (h2 : v ≤ hi2) (h99 : v ≤ 99) :
    parseNum2 lo2 hi2 lo1 hi1 (pad2 v ++ rest) = some (v, rest) := by
  have hv10 : v / 10 < 10 := by omega
  have hv1 : v % 10 < 10 := by omega
  have hv : 10 * (v / 10) + v % 10 = v := by omega
  simp only [pad2, List.cons_append, List.nil_append, parseNum2,
    digitCh_isDig _ hv10, digitCh_isDig _ hv1, digitCh_dval _ hv10,
    digitCh_dval _ hv1, hv]
  rw [if_pos ⟨trivial, trivial, h1, h2⟩]

theorem parseYear4_pad4 (v : Nat) (rest : Str) (h : v ≤ 9999) :
    parseYear4 (pad4 v ++ rest) = some (v, rest) := by
  have ha : v / 1000 % 10 < 10 := by omega
  have hb : v / 100 % 10 < 10 := by omega
  have hc : v / 10 % 10 < 10 := by omega
  have hd : v % 10 < 10 := by omega
  have hv : ((v / 1000 % 10 * 10 + v / 100 % 10) * 10 + v / 10 % 10) * 10 + v % 10
      = v := by omega
  simp only [pad4, List.cons_append, List.nil_append, parseYear4,
    digitCh_isDig _ ha, digitCh_isDig _ hb, digitCh_isDig _ hc,
    digitCh_isDig _ hd, digitCh_dval _ ha, digitCh_dval _ hb,
    digitCh_dval _ hc, digitCh_dval _ hd, hv]
  rw [if_pos ⟨trivial, trivial, trivial, trivial⟩]

end ParseLemmas

namespace ParseLemmas

theorem validDateStr_fmtDate (t : PyDateTime) (h : t.Valid) :
    validDateStr (fmtDate t) = true := by
  obtain ⟨h1, h2, h3, h4, h5, h6, _h7, _h8, _h9⟩ := h
  have hy := parseYear4_pad4 t.year ('-' :: (pad2 t.month ++ '-' :: pad2 t.day)) h2
  have hm := parseNum2_pad2 1 12 1 9 t.month ('-' :: pad2 t.day) h3 h4 (by omega)
  have hd : parseNum2 1 31 1 9 (pad2 t.day) = some (t.day, []) := by
    have h31 : t.day ≤ 31 := le_trans h6 (daysInMonth_le_31 t.year t.month)
    have := parseNum2_pad2 1 31 1 9 t.day [] h5 h31 (by omega)
    rwa [List.append_nil] at this
  simp only [validDateStr, fmtDate, hy, hm, hd]
  simp [h1, h2, h6]

theorem validDateTimeStr_fmtDateTime (t : PyDateTime) (h : t.Valid) :
    validDateTimeStr (fmtDateTime t) = true := by
  obtain ⟨h1, h2, h3, h4, h5, h6, h7, h8, h9⟩ := h
  have hy := parseYear4_pad4 t.year
    ('-' :: (pad2 t.month ++ '-' :: (pad2 t.day ++ ' ' ::
      (pad2 t.hour ++ ':' :: (pad2 t.minute ++ ':' :: pad2 t.second))))) h2
  have hm := parseNum2_pad2 1 12 1 9 t.month
    ('-' :: (pad2 t.day ++ ' ' ::
      (pad2 t.hour ++ ':' :: (pad2 t.minute ++ ':' :: pad2 t.second)))) h3 h4
    (by omega)
  have h31 : t.day ≤ 31 := le_trans h6 (daysInMonth_le_31 t.year t.month)
  have hd := parseNum2_pad2 1 31 1 9 t.day
    (' ' :: (pad2 t.hour ++ ':' :: (pad2 t.minute ++ ':' :: pad2 t.second))) h5
    h31 (by omega)
  have hh := parseNum2_pad2 0 23 0 9 t.hour
    (':' :: (pad2 t.minute ++ ':' :: pad2 t.second)) (Nat.zero_le _) h7 (by omega)
  have hmi := parseNum2_pad2 0 59 0 9 t.minute (':' :: pad2 t.second)
    (Nat.zero_le _) h8 (by omega)
  have hs : parseNum2 0 61 0 9 (pad2 t.second) = some (t.second, []) := by
    have := parseNum2_pad2 0 61 0 9 t.second [] (Nat.zero_le _) (by omega) (by omega)
    rwa [List.append_nil] at this
  simp only [validDateTimeStr, fmtDateTime, hy, hm, hd, hh, hmi, hs]
  simp [h1, h2, h6, h9]

theorem pyStrip_fmtDateTime (t : PyDateTime) :
    pyStrip (fmtDateTime t) = fmtDateTime t := by
  have hhead : isPySpace (digitCh (t.year / 1000 % 10)) = false :=
    digitCh_not_space _ (by omega)
  have hlast : isPySpace (digitCh (t.second % 10)) = false :=
    digitCh_not_space _ (by omega)
  have hshape : fmtDateTime t =
      digitCh (t.year / 1000 % 10) ::
        ([digitCh (t.year / 100 % 10), digitCh (t.year / 10 % 10),
          digitCh (t.year % 10), '-', digitCh (t.month / 10),
          digitCh (t.month % 10), '-', digitCh (t.day / 10),
          digitCh (t.day % 10), ' ', digitCh (t.hour / 10),
          digitCh (t.hour % 10), ':', digitCh (t.minute / 10),
          digitCh (t.minute % 10), ':', digitCh (t.second / 10)]
          ++ [digitCh (t.second % 10)]) := by
    simp [fmtDateTime, pad4, pad2]
  rw [hshape]
  unfold pyStrip
  rw [StrLemmas.lstrip_cons_of_not_space _ _ hhead,
    show digitCh (t.year / 1000 % 10) ::
        ([digitCh (t.year / 100 % 10), digitCh (t.year / 10 % 10),
          digitCh (t.year % 10), '-', digitCh (t.month / 10),
          digitCh (t.month % 10), '-', digitCh (t.day / 10),
          digitCh (t.day % 10), ' ', digitCh (t.hour / 10),
          digitCh (t.hour % 10), ':', digitCh (t.minute / 10),
          digitCh (t.minute % 10), ':', digitCh (t.second / 10)]
          ++ [digitCh (t.second % 10)]) =
      (digitCh (t.year / 1000 % 10) ::
        [digitCh (t.year / 100 % 10), digitCh (t.year / 10 % 10),
          digitCh (t.year % 10), '-', digitCh (t.month / 10),
          digitCh (t.month % 10), '-', digitCh (t.day / 10),
          digitCh (t.day % 10), ' ', digitCh (t.hour / 10),
          digitCh (t.hour % 10), ':', digitCh (t.minute / 10),
          digitCh (t.minute % 10), ':', digitCh (t.second / 10)])
          ++ [digitCh (t.second % 10)] by simp]
  rw [show (digitCh (t.year / 1000 % 10) ::
        [digitCh (t.year / 100 % 10), digitCh (t.year / 10 % 10),
          digitCh (t.year % 10), '-', digitCh (t.month / 10),
          digitCh (t.month % 10), '-', digitCh (t.day / 10),
          digitCh (t.day % 10), ' ', digitCh (t.hour / 10),
          digitCh (t.hour % 10), ':', digitCh (t.minute / 10),
          digitCh (t.minute % 10), ':', digitCh (t.second / 10)]) =
      (digitCh (t.year / 1000 % 10) ::
        [digitCh (t.year / 100 % 10), digitCh (t.year / 10 % 10),
          digitCh (t.year % 10), '-', digitCh (t.month / 10),
          digitCh (t.month % 10), '-', digitCh (t.day / 10),
          digitCh (t.day % 10), ' ', digitCh (t.hour / 10),
          digitCh (t.hour % 10), ':', digitCh (t.minute / 10),
          digitCh (t.minute % 10), ':', digitCh (t.second / 10)]) ++ [] from
      (List.append_nil _).symm]
  rw [StrLemmas.rstrip_append_of_not_space _ _ _ hlast]

theorem pyStrip_fmtDate (t : PyDateTime) :
    pyStrip (fmtDate t) = fmtDate t := by
  have hhead : isPySpace (digitCh (t.year / 1000 % 10)) = false :=
    digitCh_not_space _ (by omega)
  have hlast : isPySpace (digitCh (t.day % 10)) = false :=
    digitCh_not_space _ (by omega)
  have hshape : fmtDate t =
      digitCh (t.year / 1000 % 10) ::
        ([digitCh (t.year / 100 % 10), digitCh (t.year / 10 % 10),
          digitCh (t.year % 10), '-', digitCh (t.month / 10),
          digitCh (t.month % 10), '-', digitCh (t.day / 10)]
          ++ [digitCh (t.day % 10)]) := by
    simp [fmtDate, pad4, pad2]
  rw [hshape]
  unfold pyStrip
  rw [StrLemmas.lstrip_cons_of_not_space _ _ hhead,
    show digitCh (t.year / 1000 % 10) ::
        ([digitCh (t.year / 100 % 10), digitCh (t.year / 10 % 10),
          digitCh (t.year % 10), '-', digitCh (t.month / 10),
          digitCh (t.month % 10), '-', digitCh (t.day / 10)]
          ++ [digitCh (t.day % 10)]) =
      (digitCh (t.year / 1000 % 10) ::
        [digitCh (t.year / 100 % 10), digitCh (t.year / 10 % 10),
          digitCh (t.year % 10), '-', digitCh (t.month / 10),
          digitCh (t.month % 10), '-', digitCh (t.day / 10)]) ++ [] ++
        [digitCh (t.day % 10)] by simp]
  rw [StrLemmas.rstrip_append_of_not_space _ _ _ hlast]

end ParseLemmas

namespace FloatLemmas

open StrLemmas ParseLemmas

theorem natToStrAux_spec :
    ∀ fuel n, n < fuel →
      natToStrAux fuel n ≠ [] ∧
        ∀ c ∈ natToStrAux fuel n, ∃ d, d < 10 ∧ c = digitCh d := by
  intro fuel
  induction fuel with
  | zero => intro n h; omega
  | succ fuel ih =>
    intro n h
    by_cases h10 : n < 10
    · refine ⟨by simp [natToStrAux, h10], ?_⟩
      intro c hc
      simp [natToStrAux, h10] at hc
      exact ⟨n, h10, hc⟩
    · have hlt : n / 10 < fuel := by omega
      obtain ⟨hne, hall⟩ := ih (n / 10) hlt
      constructor
      · simp [natToStrAux, h10]
      · intro c hc
        simp only [natToStrAux, if_neg h10] at hc
        rcases List.mem_append.1 hc with h1 | h1
        · exact hall c h1
        · simp at h1
          exact ⟨n % 10, by omega, h1⟩

theorem natToStr_spec (n : Nat) :
    natToStr n ≠ [] ∧ ∀ c ∈ natToStr n, ∃ d, d < 10 ∧ c = digitCh d :=
  natToStrAux_spec (n + 1) n (by omega)

theorem takeWhile_append_all (p : Char → Bool) (as r : Str)
    (h : ∀ c ∈ as, p c = true) :
    (as ++ r).takeWhile p = as ++ r.takeWhile p := by
  induction as with
  | nil => simp
  | cons a as ih =>
    have ha : p a = true := h a (List.mem_cons_self _ _)
    simp only [List.cons_append, List.takeWhile_cons, ha, if_true]
    rw [ih (fun c hc => h c (List.mem_cons_of_mem _ hc))]

theorem dropWhile_append_all (p : Char → Bool) (as r : Str)
    (h : ∀ c ∈ as, p c = true) :
    (as ++ r).dropWhile p = r.dropWhile p := by
  induction as with
  | nil => simp
  | cons a as ih =>
    have ha : p a = true := h a (List.mem_cons_self _ _)
    simp only [List.cons_append, List.dropWhile_cons, ha, if_true]
    exact ih (fun c hc => h c (List.mem_cons_of_mem _ hc))

theorem pyStrip_eq_self_of_no_space (xs : Str)
    (h : ∀ c ∈ xs, isPySpace c = false) : pyStrip xs = xs := by
  have hl : lstrip xs = xs := by
    cases xs with
    | nil => rfl
    | cons a r => exact lstrip_cons_of_not_space a r (h a (List.mem_cons_self _ _))
  have hr : rstrip xs = xs := by
    unfold rstrip
    cases hrev : xs.reverse with
    | nil =>
      rw [List.reverse_eq_nil_iff] at hrev
      rw [hrev]
      rfl
    | cons a r =>
      have ha : a ∈ xs := by
        rw [← List.mem_reverse, hrev]
        exact List.mem_cons_self _ _
      rw [List.dropWhile_cons, h a ha]
      simp only [Bool.false_eq_true, if_false]
      rw [← hrev, List.reverse_reverse]
  unfold pyStrip
  rw [hl, hr]

end FloatLemmas

namespace FloatLemmas

open StrLemmas ParseLemmas

theorem digit_facts :
    ∀ d, d < 10 → lowerCh (digitCh d) = digitCh d ∧ ¬(digitCh d = 'i') ∧
      ¬(digitCh d = 'n') ∧ ¬(digitCh d = '+' ∨ digitCh d = '-') := by decide

theorem dash_not_space : isPySpace '-' = false := by decide

theorem dot_not_space : isPySpace '.' = false := by decide

theorem isDig_dot : isDig '.' = false := by decide

theorem pyFloat_accepts_decimal (sign : Str) (a : Nat) (ds : Str)
    (hsign : sign = [] ∨ sign = ['-'])
    (_hne : ds ≠ []) (hds : ∀ c ∈ ds, ∃ d, d < 10 ∧ c = digitCh d) :
    pyFloatParses (sign ++ (natToStr a ++ '.' :: ds)) = true := by
  obtain ⟨hnne, hna⟩ := natToStr_spec a
  -- every character of the literal is printable and non-space
  have hnospace : ∀ c ∈ sign ++ (natToStr a ++ '.' :: ds), isPySpace c = false := by
    intro c hc
    rcases List.mem_append.1 hc with h1 | h1
    · rcases hsign with hs | hs <;> subst hs
      · simp at h1
      · simp at h1
        rw [h1]
        exact dash_not_space
    · rcases List.mem_append.1 h1 with h2 | h2
      · obtain ⟨d, hd, hcd⟩ := hna c h2
        rw [hcd]
        exact digitCh_not_space d hd
      · rcases List.mem_cons.1 h2 with h3 | h3
        · rw [h3]
          exact dot_not_space
        · obtain ⟨d, hd, hcd⟩ := hds c h3
          rw [hcd]
          exact digitCh_not_space d hd
  have hstrip : pyStrip (sign ++ (natToStr a ++ '.' :: ds)) =
      sign ++ (natToStr a ++ '.' :: ds) :=
    pyStrip_eq_self_of_no_space _ hnospace
  obtain ⟨c0, cr, hc0⟩ : ∃ c0 cr, natToStr a = c0 :: cr := by
    cases h : natToStr a with
    | nil => exact absurd h hnne
    | cons x xs => exact ⟨x, xs, rfl⟩
  obtain ⟨d0, hd0, hcd0⟩ := hna c0 (by rw [hc0]; exact List.mem_cons_self _ _)
  have hsign_strip : stripSign (sign ++ (natToStr a ++ '.' :: ds)) =
      natToStr a ++ '.' :: ds := by
    rcases hsign with hs | hs <;> subst hs
    · rw [List.nil_append, hc0, List.cons_append, stripSign]
      rw [if_neg (by rw [hcd0]; exact (digit_facts d0 hd0).2.2.2), ← List.cons_append, ← hc0]
    · rw [show (['-'] : Str) ++ (natToStr a ++ '.' :: ds) =
          '-' :: (natToStr a ++ '.' :: ds) from rfl, stripSign,
        if_pos (Or.inr rfl)]
  have hdigall : ∀ c ∈ natToStr a, isDig c = true := by
    intro c hc
    obtain ⟨d, hd, hcd⟩ := hna c hc
    rw [hcd]
    exact digitCh_isDig d hd
  have hdsall : ∀ c ∈ ds, isDig c = true := by
    intro c hc
    obtain ⟨d, hd, hcd⟩ := hds c hc
    rw [hcd]
    exact digitCh_isDig d hd
  -- the inf / infinity / nan test fails: the first character is a digit
  have hmap : (natToStr a ++ '.' :: ds).map lowerCh =
      digitCh d0 :: (cr.map lowerCh ++ ('.' :: ds).map lowerCh) := by
    rw [hc0, List.cons_append, List.map_cons, List.map_append, hcd0,
      (digit_facts d0 hd0).1]
  have hnotinf :
      ¬((natToStr a ++ '.' :: ds).map lowerCh = ['i', 'n', 'f'] ∨
        (natToStr a ++ '.' :: ds).map lowerCh =
          ['i', 'n', 'f', 'i', 'n', 'i', 't', 'y'] ∨
        (natToStr a ++ '.' :: ds).map lowerCh = ['n', 'a', 'n']) := by
    rw [hmap]
    intro hcase
    rcases hcase with h | h | h <;>
      exact absurd (List.cons_eq_cons.1 h).1
        (by first
          | exact (digit_facts d0 hd0).2.1
          | exact (digit_facts d0 hd0).2.2.1)
  have htake : (natToStr a ++ '.' :: ds).takeWhile isDig = natToStr a := by
    rw [takeWhile_append_all isDig _ _ hdigall, List.takeWhile_cons, isDig_dot]
    simp
  have hdrop : (natToStr a ++ '.' :: ds).dropWhile isDig = '.' :: ds := by
    rw [dropWhile_append_all isDig _ _ hdigall, List.dropWhile_cons, isDig_dot]
    simp
  have hdstake : ds.takeWhile isDig = ds := by
    have := takeWhile_append_all isDig ds [] hdsall
    simpa using this
  have hdsdrop : ds.dropWhile isDig = [] := by
    have := dropWhile_append_all isDig ds [] hdsall
    simpa using this
  unfold pyFloatParses
  simp only [hstrip, hsign_strip, hmap]
  rw [if_neg (hmap ▸ hnotinf)]
  simp only [htake, hdrop, hdstake, hdsdrop]
  rw [if_neg (by
    intro hcontra
    exact hnne hcontra.1)]
  rfl

theorem pyFloatParses_showRat2 (q : ℚ) : pyFloatParses (showRat2 q) = true := by
  have hshow : showRat2 q =
      (if ratFloor (q * 100) < 0 then ['-'] else []) ++
        (natToStr ((ratFloor (q * 100)).natAbs / 100) ++ '.' ::
          (if (ratFloor (q * 100)).natAbs % 10 = 0 then
            [digitCh ((ratFloor (q * 100)).natAbs % 100 / 10)]
          else
            [digitCh ((ratFloor (q * 100)).natAbs % 100 / 10),
              digitCh ((ratFloor (q * 100)).natAbs % 10)])) := by
    unfold showRat2
    simp only [List.append_assoc]
  rw [hshow]
  apply pyFloat_accepts_decimal
  · by_cases h : ratFloor (q * 100) < 0
    · right
      rw [if_pos h]
    · left
      rw [if_neg h]
  · by_cases h : (ratFloor (q * 100)).natAbs % 10 = 0 <;> simp [h]
  · intro c hc
    by_cases h : (ratFloor (q * 100)).natAbs % 10 = 0
    · rw [if_pos h] at hc
      simp at hc
      exact ⟨_, by omega, hc⟩
    · rw [if_neg h] at hc
      simp at hc
      rcases hc with h1 | h1
      · exact ⟨_, by omega, h1⟩
      · exact ⟨_, by omega, h1⟩

theorem showRat2_ne_nil (q : ℚ) : showRat2 q ≠ [] := by
  unfold showRat2
  simp

theorem showRat2_no_space (q : ℚ) : ∀ c ∈ showRat2 q, isPySpace c = false := by
  intro c hc
  unfold showRat2 at hc
  simp only [List.mem_append] at hc
  obtain ⟨hnne, hna⟩ := natToStr_spec ((ratFloor (q * 100)).natAbs / 100)
  rcases hc with (h1 | h1) | h1
  · by_cases h : ratFloor (q * 100) < 0
    · rw [if_pos h] at h1
      simp at h1
      rw [h1]
      exact dash_not_space
    · rw [if_neg h] at h1
      simp at h1
  · obtain ⟨d, hd, hcd⟩ := hna c h1
    rw [hcd]
    exact ParseLemmas.digitCh_not_space d hd
  · rcases List.mem_cons.1 h1 with h2 | h2
    · rw [h2]
      exact dot_not_space
    · by_cases h : (ratFloor (q * 100)).natAbs % 10 = 0
      · rw [if_pos h] at h2
        simp at h2
        rw [h2]
        exact ParseLemmas.digitCh_not_space _ (by omega)
      · rw [if_neg h] at h2
        simp at h2
        rcases h2 with h3 | h3 <;>
          (rw [h3]; exact ParseLemmas.digitCh_not_space _ (by omega))

theorem pyStrip_showRat2 (q : ℚ) : pyStrip (showRat2 q) = showRat2 q :=
  pyStrip_eq_self_of_no_space _ (showRat2_no_space q)

end FloatLemmas

namespace CleanupLemmas

open StrLemmas FloatLemmas

theorem validate_log_entry_map_strip (ps : List Str) :
    validate_log_entry (ps.map pyStrip) = validate_log_entry ps := by
  match ps with
  | [] => rfl
  | [a] => rfl
  | [a, b] => rfl
  | [a, b, c] => rfl
  | [a, b, c, d] => rfl
  | [a, b, c, d, e] => rfl
  | [a, b, c, d, e, f] =>
    simp only [List.map_cons, List.map_nil, validate_log_entry, pyStrip_idem]
  | a :: b :: c :: d :: e :: f :: g :: rest => rfl

theorem validate_log_entry_congr (ps qs : List Str)
    (hmap : ps.map pyStrip = qs.map pyStrip) :
    validate_log_entry ps = validate_log_entry qs := by
  rw [← validate_log_entry_map_strip ps, ← validate_log_entry_map_strip qs, hmap]

theorem validate_head_strip (ps : List Str) (h : validate_log_entry ps = true) :
    ∃ a rest, ps = a :: rest ∧ pyStrip a ≠ [] := by
  match ps with
  | [] => exact absurd h (by simp [validate_log_entry])
  | [a] => exact absurd h (by simp [validate_log_entry])
  | [a, b] => exact absurd h (by simp [validate_log_entry])
  | [a, b, c] => exact absurd h (by simp [validate_log_entry])
  | [a, b, c, d] => exact absurd h (by simp [validate_log_entry])
  | [a, b, c, d, e] => exact absurd h (by simp [validate_log_entry])
  | [a, b, c, d, e, f] =>
    refine ⟨a, [b, c, d, e, f], rfl, ?_⟩
    intro ha
    rw [validate_log_entry, if_pos (Or.inl ha)] at h
    exact Bool.false_ne_true h
  | a :: b :: c :: d :: e :: f :: g :: rest =>
    exact absurd h (by simp [validate_log_entry])

theorem mem_joinComma_head (c : Char) (g : Str) (gs : List Str) (hc : c ∈ g) :
    c ∈ joinComma (g :: gs) := by
  cases gs with
  | nil => exact hc
  | cons g2 gs2 =>
    rw [show joinComma (g :: g2 :: gs2) = g ++ ',' :: joinComma (g2 :: gs2)
      from rfl]
    exact List.mem_append_left _ hc

theorem newline_space : isPySpace '\n' = true := by decide

/-- Destructuring a successful `cleanup_row`. -/
theorem cleanup_row_some (raw out : Str) (h : cleanup_row raw = some out) :
    ∃ ps, out = joinComma ps ∧ ps.length = 6 ∧ validate_log_entry ps = true ∧
      (∀ x ∈ ps, ',' ∉ x) := by
  simp only [cleanup_row] at h
  split_ifs at h with h1 h2 h3
  all_goals simp at h
  exact ⟨(splitComma (pyStrip raw)).take 6, h.symm,
    by rw [List.length_take]; omega, h3,
    fun x hx => not_comma_mem_splitComma _ x (List.take_subset _ _ hx)⟩

/-- A row that is strip-fixed, six-field and valid reproduces itself when the
repair pass reads it back from the rewritten file. -/
theorem cleanup_row_stable (r : Str) (h1 : pyStrip r = r)
    (h2 : (splitComma r).length = 6)
    (h3 : validate_log_entry (splitComma r) = true) :
    cleanup_row (r ++ ['\n']) = some r := by
  have hstrip : pyStrip (r ++ ['\n']) = r := by
    rw [pyStrip_append_space _ _ newline_space, h1]
  have hrne : r ≠ [] := by
    intro hr
    rw [hr] at h2
    simp [splitComma] at h2
  have htake : (splitComma r).take 6 = splitComma r := by
    rw [← h2]
    exact List.take_length _
  simp only [cleanup_row, hstrip]
  rw [if_neg hrne, if_pos (by omega), htake, if_pos h3, joinComma_splitComma]

/-- Every successful `cleanup_row` output, once stripped, is a stable row. -/
theorem cleanup_row_out_strip (raw out : Str) (h : cleanup_row raw = some out) :
    pyStrip out ≠ [] ∧ (splitComma (pyStrip out)).length = 6 ∧
      validate_log_entry (splitComma (pyStrip out)) = true ∧
      cleanup_row (out ++ ['\n']) = some (pyStrip out) := by
  obtain ⟨ps, hout, hlen, hval, hfree⟩ := cleanup_row_some raw out h
  obtain ⟨g, gs, hg⟩ : ∃ g gs, ps = g :: gs := by
    cases ps with
    | nil => simp at hlen
    | cons g gs => exact ⟨g, gs, rfl⟩
  have hsplit : splitComma out = ps := by
    rw [hout, hg]
    exact splitComma_joinComma gs g (fun x hx => hfree x (hg ▸ hx))
  have hne : pyStrip out ≠ [] := by
    obtain ⟨a, rest, hps, ha⟩ := validate_head_strip ps hval
    obtain ⟨c, hc, hcsp⟩ : ∃ c ∈ a, isPySpace c = false := by
      by_contra hcon
      push_neg at hcon
      exact ha ((pyStrip_eq_nil_iff a).2 (fun c hc => by
        have := hcon c hc
        simpa using this))
    have hca : c ∈ out := by
      rw [hout, hps]
      exact mem_joinComma_head c a rest hc
    exact pyStrip_ne_nil_of_mem out c hca hcsp
  have hlen2 : (splitComma (pyStrip out)).length = 6 := by
    rw [length_splitComma_pyStrip, hsplit, hlen]
  have hval2 : validate_log_entry (splitComma (pyStrip out)) = true := by
    rw [validate_log_entry_congr (splitComma (pyStrip out)) ps
      (by rw [map_pyStrip_splitComma_pyStrip, hsplit])]
    exact hval
  have hstable : cleanup_row (out ++ ['\n']) = some (pyStrip out) := by
    have hstrip2 : pyStrip (out ++ ['\n']) = pyStrip out :=
      pyStrip_append_space _ _ newline_space
    have htake : (splitComma (pyStrip out)).take 6 = splitComma (pyStrip out) := by
      rw [← hlen2]
      exact List.take_length _
    simp only [cleanup_row, hstrip2]
    rw [if_neg hne, if_pos (by omega), htake, if_pos hval2, joinComma_splitComma]
  exact ⟨hne, hlen2, hval2, hstable⟩

theorem filterMap_writeLines (rows : List Str)
    (h : ∀ r ∈ rows, cleanup_row (r ++ ['\n']) = some (pyStrip r)) :
    (writeLines rows).filterMap cleanup_row = rows.map pyStrip := by
  induction rows with
  | nil => rfl
  | cons r rows ih =>
    simp only [writeLines, List.map_cons, List.filterMap_cons,
      h r (List.mem_cons_self _ _)]
    rw [show (List.map (fun s => s ++ ['\n']) rows).filterMap cleanup_row =
        rows.map pyStrip from ih (fun x hx => h x (List.mem_cons_of_mem _ hx))]

theorem header_strip : pyStrip canonical_header = canonical_header := by decide

theorem header_ne_nil : canonical_header ≠ [] := by decide

end CleanupLemmas

namespace CleanupLemmas

open StrLemmas

theorem header_nl_strip : pyStrip (canonical_header ++ ['\n']) = canonical_header := by
  rw [pyStrip_append_space _ _ newline_space, header_strip]

/-- A repaired file whose first line is the canonical header and whose data
rows are stable reproduces itself under another repair pass. -/
theorem cleanup_fix_point (rows : List Str)
    (h : ∀ r ∈ rows, pyStrip r = r ∧ (splitComma r).length = 6 ∧
      validate_log_entry (splitComma r) = true) :
    cleanup_corrupted_data (writeLines (canonical_header :: rows)) =
      canonical_header :: rows := by
  have hrows : ∀ r ∈ rows, cleanup_row (r ++ ['\n']) = some (pyStrip r) := by
    intro r hr
    obtain ⟨hr1, hr2, hr3⟩ := h r hr
    rw [show some (pyStrip r) = some r from by rw [hr1]]
    exact cleanup_row_stable r hr1 hr2 hr3
  have hid : rows.map pyStrip = rows := by
    rw [show rows.map pyStrip = rows.map id from
      List.map_congr_left (fun r hr => (h r hr).1)]
    exact List.map_id rows
  show (if pyStrip (canonical_header ++ ['\n']) = [] then [] else [canonical_header])
      ++ (writeLines rows).filterMap cleanup_row = canonical_header :: rows
  rw [header_nl_strip, if_neg header_ne_nil, filterMap_writeLines rows hrows, hid]
  rfl

/-- Shape of the output of the second repair run: empty, or the canonical
header followed by stable rows. -/
theorem cleanup_run2_shape (l : List Str) :
    cleanup_corrupted_data (writeLines (cleanup_corrupted_data l)) = [] ∨
      ∃ rows,
        cleanup_corrupted_data (writeLines (cleanup_corrupted_data l)) =
          canonical_header :: rows ∧
        ∀ r ∈ rows, pyStrip r = r ∧ (splitComma r).length = 6 ∧
          validate_log_entry (splitComma r) = true := by
  cases ho1 : cleanup_corrupted_data l with
  | nil => left; rfl
  | cons x xs =>
    right
    -- every element of `x :: xs` is the canonical header or a `cleanup_row`
    -- output, and the tail consists of `cleanup_row` outputs only
    have hshape : (x = canonical_header ∨ ∃ raw, cleanup_row raw = some x) ∧
        ∀ y ∈ xs, ∃ raw, cleanup_row raw = some y := by
      cases l with
      | nil => simp [cleanup_corrupted_data] at ho1
      | cons first rest =>
        replace ho1 : (if pyStrip first = [] then ([] : List Str)
            else [canonical_header]) ++ rest.filterMap cleanup_row = x :: xs := ho1
        by_cases hf : pyStrip first = []
        · rw [if_pos hf, List.nil_append] at ho1
          constructor
          · right
            have : x ∈ rest.filterMap cleanup_row := by
              rw [ho1]
              exact List.mem_cons_self _ _
            obtain ⟨raw, _, hraw⟩ := List.mem_filterMap.1 this
            exact ⟨raw, hraw⟩
          · intro y hy
            have : y ∈ rest.filterMap cleanup_row := by
              rw [ho1]
              exact List.mem_cons_of_mem _ hy
            obtain ⟨raw, _, hraw⟩ := List.mem_filterMap.1 this
            exact ⟨raw, hraw⟩
        · rw [if_neg hf] at ho1
          have hx : x = canonical_header := (List.cons_eq_cons.1 ho1).1.symm
          have hxs : xs = rest.filterMap cleanup_row := by
            have := (List.cons_eq_cons.1 ho1).2
            simpa using this.symm
          refine ⟨Or.inl hx, ?_⟩
          intro y hy
          rw [hxs] at hy
          obtain ⟨raw, _, hraw⟩ := List.mem_filterMap.1 hy
          exact ⟨raw, hraw⟩
    have hxstrip : pyStrip x ≠ [] := by
      rcases hshape.1 with hx | ⟨raw, hraw⟩
      · rw [hx, header_strip]
        exact header_ne_nil
      · exact (cleanup_row_out_strip raw x hraw).1
    have hxsrows : ∀ y ∈ xs, cleanup_row (y ++ ['\n']) = some (pyStrip y) := by
      intro y hy
      obtain ⟨raw, hraw⟩ := hshape.2 y hy
      exact (cleanup_row_out_strip raw y hraw).2.2.2
    refine ⟨xs.map pyStrip, ?_, ?_⟩
    · show (if pyStrip (x ++ ['\n']) = [] then [] else [canonical_header]) ++
          (writeLines xs).filterMap cleanup_row =
          canonical_header :: List.map pyStrip xs
      rw [pyStrip_append_space _ _ newline_space, if_neg hxstrip,
        filterMap_writeLines xs hxsrows]
      rfl
    · intro r hr
      obtain ⟨y, hy, hyr⟩ := List.mem_map.1 hr
      obtain ⟨raw, hraw⟩ := hshape.2 y hy
      obtain ⟨_, hl2, hv2, _⟩ := cleanup_row_out_strip raw y hraw
      subst hyr
      exact ⟨pyStrip_idem y, hl2, hv2⟩

end CleanupLemmas

namespace StoreLemmas

open StrLemmas ParseLemmas FloatLemmas CleanupLemmas

theorem fmtDateTime_ne_nil (t : PyDateTime) : fmtDateTime t ≠ [] := by
  simp [fmtDateTime, pad4]

theorem fmtDate_ne_nil (t : PyDateTime) : fmtDate t ≠ [] := by
  simp [fmtDate, pad4]

theorem pyStrip_showRat2_ne_nil (q : ℚ) : pyStrip (showRat2 q) ≠ [] := by
  rw [pyStrip_showRat2]
  exact showRat2_ne_nil q

/-- The defense-in-depth re-validation inside `log_time` always passes for
rows built from constructor-valid datetimes and a non-blank task. -/
theorem validate_buildLogEntry (task : Str) (s e : PyDateTime) (stype : Str)
    (hs : s.Valid) (he : e.Valid) (ht : pyStrip task ≠ []) :
    validate_log_entry (serialize_log_entry (buildLogEntry task s e stype)) =
      true := by
  have hne : ¬(pyStrip (pyStrip task) = [] ∨ pyStrip (fmtDateTime s) = [] ∨
      pyStrip (fmtDateTime e) = [] ∨
      pyStrip (showRat2 (pyRound2 (logDuration s e))) = [] ∨
      pyStrip (fmtDate s) = []) := by
    intro hcase
    rcases hcase with h | h | h | h | h
    · rw [pyStrip_idem] at h
      exact ht h
    · rw [pyStrip_fmtDateTime] at h
      exact fmtDateTime_ne_nil s h
    · rw [pyStrip_fmtDateTime] at h
      exact fmtDateTime_ne_nil e h
    · exact pyStrip_showRat2_ne_nil _ h
    · rw [pyStrip_fmtDate] at h
      exact fmtDate_ne_nil s h
  show validate_log_entry
    [pyStrip task, fmtDateTime s, fmtDateTime e,
      showRat2 (pyRound2 (logDuration s e)), fmtDate s,
      if stype = [] then work_str else stype] = true
  simp only [validate_log_entry]
  rw [if_neg hne, pyStrip_fmtDateTime, pyStrip_fmtDateTime, pyStrip_fmtDate,
    pyStrip_showRat2, validDateTimeStr_fmtDateTime s hs,
    validDateTimeStr_fmtDateTime e he, validDateStr_fmtDate s hs,
    pyFloatParses_showRat2]
  rfl

/-- `log_time` on validator-passing input: append the built row and apply
the incremental update with the raw name and the unrounded duration. -/
theorem log_time_success (st : TrackerState) (task : Str) (s e : PyDateTime)
    (stype : Str) (hs : s.Valid) (he : e.Valid) (ht : pyStrip task ≠ [])
    (hlt : toSecs s < toSecs e) :
    log_time st task s e stype = .ok { st with
      time_logs := st.time_logs ++ [buildLogEntry task s e stype]
      tasks := update_task_total_time st.tasks task (logDuration s e) } := by
  have h1 : ¬(task = [] ∨ pyStrip task = []) := by
    intro hcase
    rcases hcase with h | h
    · exact ht (by rw [h]; rfl)
    · exact ht h
  have h2 : ¬(toSecs e ≤ toSecs s) := by omega
  have h3 : ¬(logDuration s e ≤ 0) := by
    unfold logDuration
    have hcast : (toSecs s : ℚ) < (toSecs e : ℚ) := by
      exact_mod_cast hlt
    intro hle
    have : (0 : ℚ) < ((toSecs e : ℚ) - (toSecs s : ℚ)) / 60 := by
      apply div_pos
      · linarith
      · norm_num
    linarith
  simp only [log_time]
  rw [if_neg h1, if_neg h2, if_neg h3,
    if_pos (validate_buildLogEntry task s e stype hs he ht)]

end StoreLemmas

namespace StoreLemmas

theorem log_time_ok_fields (st : TrackerState) (task : Str) (s e : PyDateTime)
    (stype : Str) (st1 : TrackerState)
    (h : log_time st task s e stype = .ok st1) :
    st1.data_cache = st.data_cache ∧
      st1.time_logs = st.time_logs ++ [buildLogEntry task s e stype] ∧
      st1.schedule_blocks = st.schedule_blocks := by
  simp only [log_time] at h
  split_ifs at h with h1 h2 h3 h4
  all_goals simp at h
  rw [← h]
  exact ⟨rfl, rfl, rfl⟩

theorem apply_task_total_name_eq (logs : List LogRow) (n : Str) (x : TaskRow) :
    ((if x.task_name = n then
      { x with total_time_minutes := some (sumDur logs n) } else x) :
      TaskRow).task_name = x.task_name := by
  split <;> rfl

theorem apply_task_total_preserve (logs : List LogRow) (ts : List TaskRow)
    (n : Str) (r : TaskRow) (hr : r ∈ ts) (hne : r.task_name ≠ n) :
    r ∈ apply_task_total logs ts n := by
  unfold apply_task_total
  by_cases hany : ts.any (fun x => x.task_name = n)
  · rw [if_pos hany]
    have heq : ((if r.task_name = n then
        { r with total_time_minutes := some (sumDur logs n) } else r) :
        TaskRow) = r := by
      rw [if_neg hne]
    rw [← heq]
    exact List.mem_map_of_mem _ hr
  · rw [if_neg hany]
    exact List.mem_append_left _ hr

theorem apply_task_total_names (logs : List LogRow) (ts : List TaskRow)
    (n : Str) (r : TaskRow) (hr : r ∈ apply_task_total logs ts n) :
    r.task_name ∈ ts.map (fun x => x.task_name) ∨ r.task_name = n := by
  unfold apply_task_total at hr
  by_cases hany : ts.any (fun x => x.task_name = n)
  · rw [if_pos hany] at hr
    obtain ⟨x, hx, hxr⟩ := List.mem_map.1 hr
    left
    rw [← hxr, apply_task_total_name_eq]
    exact List.mem_map_of_mem _ hx
  · rw [if_neg hany] at hr
    rcases List.mem_append.1 hr with h | h
    · left
      exact List.mem_map_of_mem _ h
    · right
      simp at h
      rw [h]

theorem apply_task_total_has (logs : List LogRow) (ts : List TaskRow) (n : Str) :
    ∃ r ∈ apply_task_total logs ts n, r.task_name = n ∧
      r.total_time_minutes = some (sumDur logs n) := by
  unfold apply_task_total
  by_cases hany : ts.any (fun x => x.task_name = n)
  · rw [if_pos hany]
    obtain ⟨x, hx, hxn⟩ := List.any_eq_true.1 hany
    have hxn2 : x.task_name = n := of_decide_eq_true hxn
    refine ⟨{ x with total_time_minutes := some (sumDur logs n) }, ?_, hxn2, rfl⟩
    have heq : ((if x.task_name = n then
        { x with total_time_minutes := some (sumDur logs n) } else x) :
        TaskRow) = { x with total_time_minutes := some (sumDur logs n) } := by
      rw [if_pos hxn2]
    rw [← heq]
    exact List.mem_map_of_mem _ hx
  · rw [if_neg hany]
    exact ⟨⟨n, none, none, some (sumDur logs n)⟩,
      List.mem_append_right _ (List.mem_singleton_self _), rfl, rfl⟩

theorem foldl_apply_preserve (logs : List LogRow) :
    ∀ (ns : List Str) (ts : List TaskRow) (r : TaskRow), r ∈ ts →
      r.task_name ∉ ns → r ∈ ns.foldl (apply_task_total logs) ts := by
  intro ns
  induction ns with
  | nil => intro ts r hr _; exact hr
  | cons n ns ih =>
    intro ts r hr hn
    rw [List.foldl_cons]
    apply ih
    · exact apply_task_total_preserve logs ts n r hr
        (fun hh => hn (by rw [hh]; exact List.mem_cons_self _ _))
    · exact fun hm => hn (List.mem_cons_of_mem _ hm)

theorem foldl_apply_has (logs : List LogRow) (n : Str) :
    ∀ (ns : List Str) (ts : List TaskRow), ns.Nodup → n ∈ ns →
      ∃ r ∈ ns.foldl (apply_task_total logs) ts, r.task_name = n ∧
        r.total_time_minutes = some (sumDur logs n) := by
  intro ns
  induction ns with
  | nil => intro ts _ h2; simp at h2
  | cons m ns ih =>
    intro ts hnd hn
    rw [List.foldl_cons]
    rcases List.mem_cons.1 hn with h | h
    · subst h
      obtain ⟨r, hr, h1, h2⟩ := apply_task_total_has logs ts n
      have hnotin : r.task_name ∉ ns := by
        rw [h1]
        exact (List.nodup_cons.1 hnd).1
      exact ⟨r, foldl_apply_preserve logs ns _ r hr hnotin, h1, h2⟩
    · exact ih _ (List.nodup_cons.1 hnd).2 h

theorem foldl_apply_new (logs : List LogRow) (n : Str) :
    ∀ (ns : List Str) (ts : List TaskRow), ns.Nodup → n ∈ ns →
      (∀ r ∈ ts, r.task_name ≠ n) →
      (⟨n, none, none, some (sumDur logs n)⟩ : TaskRow) ∈
        ns.foldl (apply_task_total logs) ts := by
  intro ns
  induction ns with
  | nil => intro ts _ h2; simp at h2
  | cons m ns ih =>
    intro ts hnd hn hts
    rw [List.foldl_cons]
    rcases List.mem_cons.1 hn with h | h
    · subst h
      have hany : ¬ ts.any (fun x => x.task_name = n) := by
        intro hc
        obtain ⟨x, hx, hxn⟩ := List.any_eq_true.1 hc
        exact hts x hx (of_decide_eq_true hxn)
      have hstep : apply_task_total logs ts n =
          ts ++ [⟨n, none, none, some (sumDur logs n)⟩] := by
        unfold apply_task_total
        rw [if_neg hany]
      rw [hstep]
      apply foldl_apply_preserve logs ns _ _
        (List.mem_append_right _ (List.mem_singleton_self _))
      exact (List.nodup_cons.1 hnd).1
    · apply ih _ (List.nodup_cons.1 hnd).2 h
      intro r hr
      rcases apply_task_total_names logs ts m r hr with hcase | hcase
      · obtain ⟨x, hx, hxr⟩ := List.mem_map.1 hcase
        rw [← hxr]
        exact hts x hx
      · rw [hcase]
        intro hmn
        have hmns : m ∉ ns := (List.nodup_cons.1 hnd).1
        rw [hmn] at hmns
        exact hmns h

theorem groupKeys_nodup (logs : List LogRow) : (groupKeys logs).Nodup :=
  ((List.perm_insertionSort _ _).nodup_iff).2 (List.nodup_dedup _)

theorem mem_groupKeys (logs : List LogRow) (n : Str) :
    n ∈ groupKeys logs ↔ n ∈ logs.map (fun l => l.task) := by
  unfold groupKeys
  rw [(List.perm_insertionSort _ _).mem_iff, List.mem_dedup]

theorem conflictScan_iff (sm em : Nat) :
    ∀ (bs : List BlockRow),
      (∀ b ∈ bs, (parseHM b.start_time).isSome ∧ (parseHM b.end_time).isSome) →
      (conflictScan sm em bs = true ↔
        ∃ b ∈ bs, ∃ bs2 be2, parseHM b.start_time = some bs2 ∧
          parseHM b.end_time = some be2 ∧ sm < be2 ∧ em > bs2) := by
  intro bs
  induction bs with
  | nil => intro _; simp [conflictScan]
  | cons b rest ih =>
    intro hp
    obtain ⟨hs, he⟩ := hp b (List.mem_cons_self _ _)
    obtain ⟨bs2, hbs⟩ := Option.isSome_iff_exists.1 hs
    obtain ⟨be2, hbe⟩ := Option.isSome_iff_exists.1 he
    rw [show conflictScan sm em (b :: rest) =
        (if sm < be2 ∧ em > bs2 then true else conflictScan sm em rest) by
      simp only [conflictScan, hbs, hbe]]
    by_cases hcond : sm < be2 ∧ em > bs2
    · rw [if_pos hcond]
      constructor
      · intro _
        exact ⟨b, List.mem_cons_self _ _, bs2, be2, hbs, hbe, hcond.1, hcond.2⟩
      · intro _
        rfl
    · rw [if_neg hcond,
        ih (fun x hx => hp x (List.mem_cons_of_mem _ hx))]
      constructor
      · intro ⟨x, hx, w⟩
        exact ⟨x, List.mem_cons_of_mem _ hx, w⟩
      · intro ⟨x, hx, w⟩
        rcases List.mem_cons.1 hx with hh | hh
        · exfalso
          subst hh
          obtain ⟨u, v, hu, hv, h1, h2⟩ := w
          rw [hbs] at hu
          rw [hbe] at hv
          have hu2 : bs2 = u := Option.some_inj.1 hu
          have hv2 : be2 = v := Option.some_inj.1 hv
          exact hcond ⟨hv2 ▸ h1, hu2 ▸ h2⟩
        · exact ⟨x, hh, w⟩

end StoreLemmas

open StrLemmas ParseLemmas FloatLemmas CleanupLemmas StoreLemmas

/-- Claim C1 (counterexample): with a populated cache, a successful
`log_time` append leaves the cache untouched, and the next
`get_time_logs()` without `force_reload` returns the stale cached rows
(here `[]`) even though the file now holds the new row. -/
theorem c1_counterexample_stale_cache_read :
    (log_time stCached task_a dt0900 dt0925 work_str).toOption.map
      (fun s1 => ((get_time_logs s1 false).1, s1.time_logs.length)) =
      some ([], 1) := by
  with_unfolding_all rfl

/-- Claim C1 (amended): the store performs no cache invalidation.  A
successful `log_time` appends to the file but leaves `_data_cache`
unchanged, so a subsequent `get_time_logs()` without `force_reload`
returns the previously cached copy, not the appended table. -/
theorem c1_amended_append_does_not_invalidate_cache (st : TrackerState)
    (task : Str) (s e : PyDateTime) (stype : Str) (st1 : TrackerState)
    (h : log_time st task s e stype = .ok st1) (c : List LogRow)
    (hc : st.data_cache = some c) :
    st1.data_cache = some c ∧ (get_time_logs st1 false).1 = c ∧
      st1.time_logs = st.time_logs ++ [buildLogEntry task s e stype] := by
  obtain ⟨h1, h2, _⟩ := log_time_ok_fields st task s e stype st1 h
  have hdc : st1.data_cache = some c := by rw [h1, hc]
  refine ⟨hdc, ?_, h2⟩
  simp [get_time_logs, hdc]

/-- Witness for C1's amended theorem at a concrete cached state. -/
theorem c1_witness :
    stC1.data_cache = some [] ∧ (get_time_logs stC1 false).1 = [] ∧
      stC1.time_logs = stCached.time_logs ++
        [buildLogEntry task_a dt0900 dt0925 work_str] :=
  c1_amended_append_does_not_invalidate_cache stCached task_a dt0900 dt0925
    work_str stC1
    (log_time_success stCached task_a dt0900 dt0925 work_str (by decide)
      (by decide) (by decide) (by decide))
    [] rfl

/-- Claim C2 (counterexample): the Corruption Repair Pass's final rewrite
does not follow the atomic temp-file-then-rename protocol — it opens the
destination itself with truncation and writes in place. -/
theorem c2_counterexample_repair_rewrite_not_atomic :
    followsAtomicWrite time_logs_path (cleanup_write_trace demoLines) = false :=
  rfl

/-- Claim C2 (amended): `writeAll` (`_safe_file_operation(..., 'write')`)
follows the atomic protocol — serialize to `path + '.tmp'`, then rename
over the destination — but the repair pass's rewrite does not: it
truncates and rewrites the destination in place. -/
theorem c2_amended_writeAll_atomic_repair_in_place (path : Str)
    (rows lines : List Str) :
    followsAtomicWrite path (safe_write_trace path rows) = true ∧
    followsAtomicWrite time_logs_path (cleanup_write_trace lines) = false := by
  constructor
  · have h1 : ¬(path ++ tmp_suffix = path) := by
      intro h
      have := congrArg List.length h
      simp [tmp_suffix] at this
    show (decide (path ++ tmp_suffix = path ++ tmp_suffix) &&
        decide (path = path) && decide (¬(path ++ tmp_suffix = path))) = true
    rw [decide_eq_true (Eq.refl (path ++ tmp_suffix)),
      decide_eq_true (Eq.refl path), decide_eq_true h1]
    rfl
  · rfl

/-- Claim C3: `log_time` fails with a validation error exactly on
empty/whitespace task, `start >= end`, or non-positive duration, leaving
all tables unchanged; on valid input it appends exactly the built row and
then applies the incremental total update (raw name, unrounded
duration). -/
theorem c3_log_time_validation_and_append (st : TrackerState) (task : Str)
    (s e : PyDateTime) (stype : Str) :
    ((pyStrip task = [] ∨ toSecs e ≤ toSecs s ∨ logDuration s e ≤ 0) →
      log_time st task s e stype = .error .validationError) ∧
    (s.Valid → e.Valid → pyStrip task ≠ [] → toSecs s < toSecs e →
      log_time st task s e stype = .ok { st with
        time_logs := st.time_logs ++ [buildLogEntry task s e stype]
        tasks := update_task_total_time st.tasks task (logDuration s e) }) := by
  constructor
  · intro h
    simp only [log_time]
    by_cases h1 : task = [] ∨ pyStrip task = []
    · rw [if_pos h1]
    · rw [if_neg h1]
      by_cases h2 : toSecs e ≤ toSecs s
      · rw [if_pos h2]
      · rw [if_neg h2]
        have h3 : logDuration s e ≤ 0 := by
          rcases h with ha | hb | hc
          · exact absurd (Or.inr ha) h1
          · exact absurd hb h2
          · exact hc
        rw [if_pos h3]
  · intro hs he ht hlt
    exact log_time_success st task s e stype hs he ht hlt

/-- Witness for C3: scenario B (`start == end` fails, nothing changes) and
a valid 25-minute log that appends and updates. -/
theorem c3_witness :
    log_time stCached task_a dt0900 dt0900 work_str = .error .validationError ∧
    log_time stCached task_a dt0900 dt0925 work_str = .ok { stCached with
      time_logs := stCached.time_logs ++ [buildLogEntry task_a dt0900 dt0925 work_str]
      tasks := update_task_total_time stCached.tasks task_a
        (logDuration dt0900 dt0925) } :=
  ⟨(c3_log_time_validation_and_append stCached task_a dt0900 dt0900 work_str).1
      (Or.inr (Or.inl (by decide))),
    (c3_log_time_validation_and_append stCached task_a dt0900 dt0925 work_str).2
      (by decide) (by decide) (by decide) (by decide)⟩

/-- Claim C4: after `update_all_task_totals`, every task name occurring in
the time logs has a task row whose total equals the group sum (full
overwrite); task rows whose names occur in no log row are carried over
unchanged; and log-only names are appended as rows with only the name and
total populated. -/
theorem c4_recompute_all_totals (logs : List LogRow) (tasks : List TaskRow) :
    (∀ name ∈ logs.map (fun l => l.task),
      ∃ r ∈ update_all_task_totals_core logs tasks, r.task_name = name ∧
        r.total_time_minutes = some (sumDur logs name)) ∧
    (∀ r ∈ tasks, r.task_name ∉ logs.map (fun l => l.task) →
      r ∈ update_all_task_totals_core logs tasks) ∧
    (∀ name ∈ logs.map (fun l => l.task), (∀ r ∈ tasks, r.task_name ≠ name) →
      (⟨name, none, none, some (sumDur logs name)⟩ : TaskRow) ∈
        update_all_task_totals_core logs tasks) := by
  unfold update_all_task_totals_core
  by_cases hlogs : logs = []
  · rw [if_pos hlogs]
    subst hlogs
    refine ⟨?_, ?_, ?_⟩
    · intro name hn
      simp at hn
    · intro r hr _
      exact hr
    · intro name hn
      simp at hn
  · rw [if_neg hlogs]
    refine ⟨?_, ?_, ?_⟩
    · intro name hn
      exact foldl_apply_has logs name (groupKeys logs) tasks
        (groupKeys_nodup logs) ((mem_groupKeys logs name).2 hn)
    · intro r hr hn
      exact foldl_apply_preserve logs (groupKeys logs) tasks r hr
        (fun hm => hn ((mem_groupKeys logs _).1 hm))
    · intro name hn hts
      exact foldl_apply_new logs name (groupKeys logs) tasks
        (groupKeys_nodup logs) ((mem_groupKeys logs name).2 hn) hts

/-- Witness for C4 at a one-log/one-task instance: task `b` gets a row with
the exact group sum, the untouched task `a` row survives unchanged, and
`b`'s new row has only name and total populated. -/
theorem c4_witness :
    (∃ r ∈ update_all_task_totals_core demoLogs demoTasks,
      r.task_name = ['b'] ∧ r.total_time_minutes = some (sumDur demoLogs ['b'])) ∧
    rowA ∈ update_all_task_totals_core demoLogs demoTasks ∧
    (⟨['b'], none, none, some (sumDur demoLogs ['b'])⟩ : TaskRow) ∈
      update_all_task_totals_core demoLogs demoTasks := by
  have h := c4_recompute_all_totals demoLogs demoTasks
  have hb : (['b'] : Str) ∈ demoLogs.map (fun l => l.task) := by
    simp [demoLogs, logRowB]
  refine ⟨h.1 ['b'] hb, h.2.1 rowA (List.mem_singleton_self _) ?_, h.2.2 ['b'] hb ?_⟩
  · simp [demoLogs, logRowB, rowA]
  · intro r hr
    have : r = rowA := by simpa [demoTasks] using hr
    rw [this]
    decide

/-- Claim C5 (counterexample): `add_task` raises the duplicate error even
though the only existing task named `a` is archived, not active — the
duplicate check never looks at `status`. -/
theorem c5_counterexample_archived_duplicate :
    add_task stArchived task_a [] = .error .duplicateError ∧
    stArchived.tasks = [⟨task_a, some archived_str, none, some 0⟩] :=
  ⟨rfl, rfl⟩

/-- Claim C5 (amended): `add_task` fails with a validation error on an
empty/whitespace name; it fails as a duplicate exactly when some existing
row's `task_name` equals the raw argument, regardless of `status`; and on
success it appends one row with the stripped name, status `active` and
total `0`. -/
theorem c5_amended_duplicate_ignores_status (st : TrackerState)
    (name now : Str) :
    ((name = [] ∨ pyStrip name = []) →
      add_task st name now = .error .validationError) ∧
    (¬(name = [] ∨ pyStrip name = []) →
      ((∃ r ∈ st.tasks, r.task_name = name) →
        add_task st name now = .error .duplicateError) ∧
      ((∀ r ∈ st.tasks, r.task_name ≠ name) →
        add_task st name now = .ok { st with tasks := st.tasks ++
          [⟨pyStrip name, some active_str, some now, some 0⟩] })) := by
  constructor
  · intro h
    simp only [add_task]
    rw [if_pos h]
  · intro h
    constructor
    · intro ⟨r, hr, hrn⟩
      simp only [add_task]
      rw [if_neg h, if_pos (List.any_eq_true.2 ⟨r, hr, decide_eq_true hrn⟩)]
    · intro hall
      have hany : ¬ st.tasks.any (fun r => r.task_name = name) := by
        intro hc
        obtain ⟨x, hx, hxn⟩ := List.any_eq_true.1 hc
        exact hall x hx (of_decide_eq_true hxn)
      simp only [add_task]
      rw [if_neg h, if_neg hany]

/-- Witness for C5's amended theorem: the archived duplicate fails, the
empty name fails, and a fresh name appends the expected row. -/
theorem c5_witness :
    add_task stArchived task_a [] = .error .duplicateError ∧
    add_task stArchived [] [] = .error .validationError ∧
    add_task stArchived ['b'] [] = .ok { stArchived with
      tasks := stArchived.tasks ++ [⟨['b'], some active_str, some [], some 0⟩] } :=
  ⟨((c5_amended_duplicate_ignores_status stArchived task_a []).2 (by decide)).1
      ⟨rowArchivedA, List.mem_singleton_self _, rfl⟩,
    (c5_amended_duplicate_ignores_status stArchived [] []).1 (Or.inl rfl),
    ((c5_amended_duplicate_ignores_status stArchived ['b'] []).2 (by decide)).2
      (by intro r hr; have : r = rowArchivedA := by simpa [stArchived] using hr
          rw [this]; decide)⟩

/-- Claim C6: given truthy fields and parseable times (and existing blocks of
that date with parseable times), `add_schedule_block` fails with the
conflict error exactly when the new half-open interval `[start, end)`
overlaps an existing block of the same date under the test
`newStart < existingEnd && newEnd > existingStart`; without an overlap the
block is appended. -/
theorem c6_schedule_conflict_iff_overlap (st : TrackerState)
    (date s e task_name block_type notes : Str) (sm em : Nat)
    (hd : date ≠ []) (hs : s ≠ []) (he : e ≠ []) (ht : task_name ≠ [])
    (hps : parseHM s = some sm) (hpe : parseHM e = some em)
    (hvd : validDateStr date = true)
    (hblocks : ∀ b ∈ st.schedule_blocks, b.date = date →
      (parseHM b.start_time).isSome ∧ (parseHM b.end_time).isSome) :
    (add_schedule_block st date s e task_name block_type notes =
        .error .conflictError ↔
      ∃ b ∈ st.schedule_blocks, b.date = date ∧ ∃ bs2 be2,
        parseHM b.start_time = some bs2 ∧ parseHM b.end_time = some be2 ∧
        sm < be2 ∧ em > bs2) ∧
    ((¬∃ b ∈ st.schedule_blocks, b.date = date ∧ ∃ bs2 be2,
        parseHM b.start_time = some bs2 ∧ parseHM b.end_time = some be2 ∧
        sm < be2 ∧ em > bs2) →
      add_schedule_block st date s e task_name block_type notes =
        .ok { st with schedule_blocks := st.schedule_blocks ++
          [⟨date, s, e, pyStrip task_name, block_type, pyStrip notes,
            false⟩] }) := by
  have h1 : ¬(date = [] ∨ s = [] ∨ e = [] ∨ task_name = []) := by
    intro hcase
    rcases hcase with h | h | h | h
    · exact hd h
    · exact hs h
    · exact he h
    · exact ht h
  have h2 : ¬¬(parseHM s).isSome = true := by
    rw [hps]
    simp
  have h3 : ¬¬(parseHM e).isSome = true := by
    rw [hpe]
    simp
  have h4 : ¬(validDateStr date ≠ true) := by
    rw [hvd]
    simp
  have hp2 : ∀ b ∈ st.schedule_blocks.filter (fun b => b.date = date),
      (parseHM b.start_time).isSome ∧ (parseHM b.end_time).isSome := by
    intro b hb
    obtain ⟨hbm, hbd⟩ := List.mem_filter.1 hb
    exact hblocks b hbm (of_decide_eq_true hbd)
  have hconf : has_time_conflict st.schedule_blocks date s e = true ↔
      ∃ b ∈ st.schedule_blocks, b.date = date ∧ ∃ bs2 be2,
        parseHM b.start_time = some bs2 ∧ parseHM b.end_time = some be2 ∧
        sm < be2 ∧ em > bs2 := by
    unfold has_time_conflict
    rw [if_pos hvd]
    simp only [hps, hpe]
    rw [conflictScan_iff sm em _ hp2]
    constructor
    · intro ⟨b, hb, w⟩
      obtain ⟨hbm, hbd⟩ := List.mem_filter.1 hb
      exact ⟨b, hbm, of_decide_eq_true hbd, w⟩
    · intro ⟨b, hb, hbd, w⟩
      exact ⟨b, List.mem_filter.2 ⟨hb, decide_eq_true hbd⟩, w⟩
  simp only [add_schedule_block]
  rw [if_neg h1, if_neg h2, if_neg h3, if_neg h4]
  by_cases hc : has_time_conflict st.schedule_blocks date s e = true
  · rw [if_pos hc]
    refine ⟨⟨fun _ => hconf.1 hc, fun _ => rfl⟩, ?_⟩
    intro hno
    exact absurd (hconf.1 hc) hno
  · rw [if_neg hc]
    refine ⟨⟨fun habs => absurd habs (by simp), fun hex => absurd (hconf.2 hex) hc⟩,
      fun _ => rfl⟩

/-- Witness for C6: scenario C — with a 09:00-10:00 block on 2024-01-01,
adding 09:30-10:30 on the same date fails with the conflict error. -/
theorem c6_witness :
    add_schedule_block stSchedule scen_date hm0930 hm1030 other_str meeting_str
      [] = .error .conflictError :=
  (c6_schedule_conflict_iff_overlap stSchedule scen_date hm0930 hm1030 other_str
      meeting_str [] 570 630 (by decide) (by decide) (by decide) (by decide)
      (by decide) (by decide) (by decide) (by decide)).1.2
    ⟨blockFocus, List.mem_singleton_self _, rfl, 540, 600, by decide, by decide,
      by decide, by decide⟩

/-- Claim C7 (counterexample): the repair pass is not idempotent.  On a file
whose first line is blank, the first run emits the surviving data row with
no header; the second run then treats that row as the header line, replaces
it with the canonical header, and drops it. -/
theorem c7_counterexample_blank_first_line :
    cleanup_corrupted_data (writeLines (cleanup_corrupted_data demoLines)) ≠
      cleanup_corrupted_data demoLines := by
  intro h
  have h1 : cleanup_corrupted_data demoLines = [demoRow] := by decide
  have h2 : cleanup_corrupted_data (writeLines (cleanup_corrupted_data demoLines)) =
      [canonical_header] := by decide
  rw [h2, h1] at h
  have h3 : canonical_header = demoRow := by
    simpa using h
  exact absurd h3 (by decide)

/-- Claim C7 (amended): the repair pass stabilizes after two runs — for
every input file, the third run reproduces the second run's cleaned lines
exactly (the second run's output always starts with the canonical header,
and all of its rows survive re-validation verbatim). -/
theorem c7_amended_repair_stabilizes_after_two_runs (lines : List Str) :
    cleanup_corrupted_data (writeLines (cleanup_corrupted_data
      (writeLines (cleanup_corrupted_data lines)))) =
    cleanup_corrupted_data (writeLines (cleanup_corrupted_data lines)) := by
  rcases cleanup_run2_shape lines with h | ⟨rows, h, hrows⟩
  · rw [h]
    rfl
  · rw [h, cleanup_fix_point rows hrows]

/-- Claim C8 (code bug): right after `complete_session` starts the long
break (it set `remaining_time` to `long_break_duration * 60 = 600` and
reset `session_count` to 0), the very next `update_timer` recomputes the
remaining time from the *short* `break_duration` — `240` seconds after one
minute — because its long-break branch requires `session_count >= 4`,
which `complete_session` has just zeroed.  The claimed value
`max 0 (long_break_duration * 60 - elapsed) = 540` differs.  `update_timer`
itself indeed never changes the phase flags. -/
theorem c8_long_break_tick_uses_short_break_duration :
    pomAfterFourthWork.is_break = true ∧
    pomAfterFourthWork.session_count = 0 ∧
    pomAfterFourthWork.remaining_time = pomAfterFourthWork.long_break_duration * 60 ∧
    (update_timer { pomAfterFourthWork with is_running := true, start_time := some 0 }
        60).remaining_time =
      max 0 (pomAfterFourthWork.break_duration * 60 - 60) ∧
    (update_timer { pomAfterFourthWork with is_running := true, start_time := some 0 }
        60).remaining_time = 240 ∧
    max 0 (pomAfterFourthWork.long_break_duration * 60 - 60) = 540 ∧
    (update_timer { pomAfterFourthWork with is_running := true, start_time := some 0 }
        60).is_break = true ∧
    (update_timer { pomAfterFourthWork with is_running := true, start_time := some 0 }
        60).session_count = 0 := by
  refine ⟨rfl, rfl, by with_unfolding_all rfl, by with_unfolding_all rfl,
    by with_unfolding_all rfl, by with_unfolding_all rfl, rfl, rfl⟩

/-- Claim C9: `add_task` compares existing names against the raw argument
but stores the stripped name, so adding `" a"` while `"a"` exists passes
the duplicate check and leaves two rows with the identical stored
`task_name` — the task table's primary key is violated. -/
theorem c9_whitespace_name_bypasses_duplicate_check :
    (add_task stActiveA (' ' :: task_a) []).toOption.map
      (fun s1 => s1.tasks.map (fun r => r.task_name)) =
      some [['a'], ['a']] := by
  with_unfolding_all rfl

/-- Claim C10: `log_time` never checks `session_type` membership in the
session-type enum: any non-empty string is persisted verbatim in the
appended row, and an empty (falsy) one is silently replaced by `"work"`. -/
theorem c10_session_type_not_validated (st : TrackerState) (task : Str)
    (s e : PyDateTime) (stype : Str) (hs : s.Valid) (he : e.Valid)
    (ht : pyStrip task ≠ []) (hlt : toSecs s < toSecs e) :
    log_time st task s e stype = .ok { st with
      time_logs := st.time_logs ++ [buildLogEntry task s e stype]
      tasks := update_task_total_time st.tasks task (logDuration s e) } ∧
    (stype ≠ [] → (buildLogEntry task s e stype).session_type = stype) ∧
    (stype = [] → (buildLogEntry task s e stype).session_type = work_str) := by
  refine ⟨log_time_success st task s e stype hs he ht hlt, ?_, ?_⟩
  · intro hne
    show (if stype = [] then work_str else stype) = stype
    rw [if_neg hne]
  · intro hnil
    show (if stype = [] then work_str else stype) = work_str
    rw [if_pos hnil]

/-- Witness for C10: the unknown session type `lunch` is accepted and
stored verbatim; the empty session type is replaced by `work`. -/
theorem c10_witness :
    log_time stCached task_a dt0900 dt0925 lunch_str = .ok { stCached with
      time_logs := stCached.time_logs ++
        [buildLogEntry task_a dt0900 dt0925 lunch_str]
      tasks := update_task_total_time stCached.tasks task_a
        (logDuration dt0900 dt0925) } ∧
    (buildLogEntry task_a dt0900 dt0925 lunch_str).session_type = lunch_str ∧
    (buildLogEntry task_a dt0900 dt0925 []).session_type = work_str :=
  ⟨(c10_session_type_not_validated stCached task_a dt0900 dt0925 lunch_str
      (by decide) (by decide) (by decide) (by decide)).1,
    (c10_session_type_not_validated stCached task_a dt0900 dt0925 lunch_str
      (by decide) (by decide) (by decide) (by decide)).2.1 (by decide),
    (c10_session_type_not_validated stCached task_a dt0900 dt0925 []
      (by decide) (by decide) (by decide) (by decide)).2.2 rfl⟩
